/-
Verification of the procedural world-generator core
(src/client/world/noise.ts, islands.ts, generator.ts).

The TypeScript code computes with IEEE doubles; this development models
number values with exact rationals (ℚ), the standard idealisation.  All
32-bit integer bit-twiddling (the mulberry32 PRNG, string hashing, the
permutation-table indexing) is exact in both worlds and is modelled with
Nat arithmetic and explicit `% 2^32`.  The few irrational library calls
(Math.sqrt, Math.pow with fractional exponent, Math.cos/Math.sin) are
modelled either by explicit rational stand-ins that are exact on the
inputs the theorems touch (sqrtQ, pow07) or, where a proof holds for
every possible implementation (the Poisson-disk spacing invariant), by
universally quantified function parameters.
-/
import Mathlib

/-! ## JS numeric primitives -/

/-- `2^32`, the modulus of all JS 32-bit integer coercions. -/
def U32 : ℕ := 4294967296

/-- A JS number restricted to the values this core produces: either NaN or an
exact rational. -/
inductive NumVal where
  | nan : NumVal
  | num (q : ℚ) : NumVal
deriving DecidableEq, Repr

/-- A seed input, `number | string` in the source; strings are carried as their
char-code sequences. -/
inductive SeedInput where
  | numIn (v : NumVal) : SeedInput
  | strIn (s : List ℕ) : SeedInput
deriving DecidableEq, Repr

/-- JS truncation toward zero of a rational (the integer part used by
`ToUint32`). `Int` division `q.num / q.den` truncates toward zero. -/
def jsTrunc (q : ℚ) : ℤ := q.num / (q.den : ℤ)

/-- JS `x >>> 0` (ToUint32): NaN maps to 0, finite numbers are truncated toward
zero and reduced mod `2^32` to a nonnegative residue. -/
def jsToUint32 : NumVal → ℕ
  | .nan => 0
  | .num q => ((jsTrunc q) % (U32 : ℤ)).toNat

/-- One step of the mulberry32 PRNG (noise.ts, `mulberry32`).  The closure
state `a` is kept as its unsigned 32-bit residue; all JS int32/uint32 bit
operations coincide with Nat operations on residues `< 2^32`.  Returns the new
state and the output `((t ^ t>>>14) >>> 0) / 2^32 ∈ [0,1)`. -/
def mulberry32Next (a : ℕ) : ℕ × ℚ :=
  let a1 := (a + 0x6D2B79F5) % U32
  let t1 := ((a1 ^^^ (a1 >>> 15)) * (a1 ||| 1)) % U32
  let t2 := ((t1 + ((t1 ^^^ (t1 >>> 7)) * (t1 ||| 61)) % U32) % U32) ^^^ t1
  let o := t2 ^^^ (t2 >>> 14)
  (a1, (o : ℚ) / (U32 : ℚ))

/-- noise.ts `hashString`: fold `hash = (hash<<5) - hash + char; hash &= hash`
over the char codes (as int32 residues), then `Math.abs`. -/
def hashString (s : List ℕ) : ℕ :=
  let h := s.foldl (fun h c => ((h * 32) % U32 + (U32 - h) + c) % U32) 0
  if h < 2147483648 then h else U32 - h

/-! ## SeededNoise (noise.ts) -/

/-- JS destructuring swap `[p[i], p[j]] = [p[j], p[i]]`: both old values are
read before either write. -/
def listSwap (p : List ℕ) (i j : ℕ) : List ℕ :=
  (p.set i (p.getD j 0)).set j (p.getD i 0)

/-- One iteration of the Fisher–Yates loop at index `v`: draw `rng()`, set
`j = floor(rng() * (v+1))`, swap `p[v]` and `p[j]`.  Returns the advanced
PRNG state and the swapped list. -/
def fyStep (a : ℕ) (p : List ℕ) (v : ℕ) : ℕ × List ℕ :=
  ((mulberry32Next a).1,
    listSwap p v (⌊(mulberry32Next a).2 * ((v : ℚ) + 1)⌋).toNat)

/-- The Fisher–Yates loop of `_buildPermutation`: `for (i = v; i > 0; i--)`
with `j = floor(rng() * (i+1))`, threading the PRNG state.  (Written with an
explicit `Nat.rec` so that one loop step unfolds definitionally.) -/
def buildPermAux (k a : ℕ) (p : List ℕ) : List ℕ × ℕ :=
  Nat.rec (motive := fun _ => ℕ → List ℕ → List ℕ × ℕ)
    (fun a0 p0 => (p0, a0))
    (fun k ih a0 p0 => ih (fyStep a0 p0 (k + 1)).1 (fyStep a0 p0 (k + 1)).2)
    k a p

/-- noise.ts `_buildPermutation`: seeded Fisher–Yates shuffle of `[0..255]`,
then the table is doubled (`[...p, ...p]`). Returns the table and the advanced
PRNG state. -/
def buildPermutation (a : ℕ) : List ℕ × ℕ :=
  let r := buildPermAux 255 a (List.range 256)
  (r.1 ++ r.1, r.2)

/-- The state of a `SeededNoise` object: the stored seed value (a JS number;
strings were hashed at store time), the mulberry32 closure state, and the
doubled permutation table. -/
structure SeededNoise where
  seedVal : NumVal
  a : ℕ
  perm : List ℕ
deriving DecidableEq, Repr

/-- Seed canonicalization of the constructor:
`typeof seed === 'string' ? hashString(seed) : (seed || 12345)` — falsy
numbers (NaN, 0) fall back to the default 12345. -/
def canonCtorSeed : SeedInput → NumVal
  | .strIn s => .num (hashString s)
  | .numIn .nan => .num 12345
  | .numIn (.num q) => if q = 0 then .num 12345 else .num q

/-- Seed canonicalization of `reseed`:
`typeof seed === 'string' ? hashString(seed) : seed` — no fallback. -/
def canonReseedSeed : SeedInput → NumVal
  | .strIn s => .num (hashString s)
  | .numIn v => v

/-- `new SeededNoise(seed)`: canonicalize, seed the PRNG, build the table. -/
def SeededNoise.make (s : SeedInput) : SeededNoise :=
  let sv := canonCtorSeed s
  let a0 := jsToUint32 sv
  let r := buildPermutation a0
  ⟨sv, r.2, r.1⟩

/-- `reset()`: re-seed the PRNG from the stored seed and rebuild the table. -/
def SeededNoise.reset (n : SeededNoise) : SeededNoise :=
  let a0 := jsToUint32 n.seedVal
  let r := buildPermutation a0
  ⟨n.seedVal, r.2, r.1⟩

/-- `reseed(seed)`: store the canonicalized seed, then `reset()`. -/
def SeededNoise.reseed (n : SeededNoise) (s : SeedInput) : SeededNoise :=
  SeededNoise.reset ⟨canonReseedSeed s, n.a, n.perm⟩

/-- `random()`: next PRNG draw, returning the value and the advanced state. -/
def SeededNoise.random (n : SeededNoise) : ℚ × SeededNoise :=
  let s := mulberry32Next n.a
  (s.2, { n with a := s.1 })

/-- `randomRange(min, max) = min + rng() * (max - min)`. -/
def SeededNoise.randomRange (n : SeededNoise) (lo hi : ℚ) : ℚ × SeededNoise :=
  let r := n.random
  (lo + r.1 * (hi - lo), r.2)

/-- The smootherstep fade curve `t*t*t*(t*(t*6-15)+10)`. -/
def fade (t : ℚ) : ℚ := t * t * t * (t * (t * 6 - 15) + 10)

/-- Linear interpolation `a + t*(b-a)`. -/
def lerpN (a b t : ℚ) : ℚ := a + t * (b - a)

/-- Gradient selection: 8 directions from `hash & 7`, value `±u ± 2v`. -/
def grad (h : ℕ) (x y : ℚ) : ℚ :=
  let h7 := h &&& 7
  let u := if h7 < 4 then x else y
  let v := if h7 < 4 then y else x
  (if h7 &&& 1 ≠ 0 then -u else u) + (if h7 &&& 2 ≠ 0 then -(2 * v) else 2 * v)

/-- noise.ts `noise2D`: permutation-table gradient noise.  `Math.floor(x)&255`
on an int32 equals the nonneg residue `⌊x⌋ % 256`. Table lookups model JS
indexing with a `getD _ 0` default (indices stay in range for well-formed
tables). -/
def noise2D (perm : List ℕ) (x y : ℚ) : ℚ :=
  let Xi := ((⌊x⌋ % 256).toNat)
  let Yi := ((⌊y⌋ % 256).toNat)
  let xf := x - (⌊x⌋ : ℚ)
  let yf := y - (⌊y⌋ : ℚ)
  let u := fade xf
  let v := fade yf
  let A := perm.getD Xi 0 + Yi
  let B := perm.getD (Xi + 1) 0 + Yi
  lerpN
    (lerpN (grad (perm.getD A 0) xf yf) (grad (perm.getD B 0) (xf - 1) yf) u)
    (lerpN (grad (perm.getD (A + 1) 0) xf (yf - 1))
      (grad (perm.getD (B + 1) 0) (xf - 1) (yf - 1)) u)
    v

/-- The fbm octave loop: octave `i` contributes `noise2D(x·freq, y·freq)·amp`
with `amp` multiplied by `persistence` and `freq` by `lacunarity` each octave.
Returns `(value, maxValue)`. -/
def fbmAux (perm : List ℕ) (x y lac pers : ℚ) : ℕ → ℚ → ℚ → ℚ × ℚ
  | 0, _, _ => (0, 0)
  | Nat.succ k, amp, freq =>
    let rest := fbmAux perm x y lac pers k (amp * pers) (freq * lac)
    (noise2D perm (x * freq) (y * freq) * amp + rest.1, amp + rest.2)

/-- noise.ts `fbm`: octave sum normalized by the sum of amplitudes.  In ℚ the
`octaves = 0` case yields `0/0 = 0` (JS would produce NaN there; no caller
uses 0 octaves). -/
def fbm (perm : List ℕ) (x y : ℚ) (octaves : ℕ) (lac pers : ℚ) : ℚ :=
  let r := fbmAux perm x y lac pers octaves 1 1
  r.1 / r.2

/-! ## Rational stand-ins for irrational Math calls -/

/-- Newton iteration for the integer square root, on structural fuel (the
kernel can unfold this, unlike the well-founded `Nat.sqrt`); the iteration
stops as soon as it converges, and 800 steps suffice for any input below
`2^1600` since the guess at least halves every step. -/
def isqrtAux (n : ℕ) : ℕ → ℕ → ℕ
  | 0, g => g
  | Nat.succ f, g =>
    let next := (g + n / g) / 2
    if next < g then isqrtAux n f next else g

/-- Integer square root (floor), structurally recursive. -/
def isqrt (n : ℕ) : ℕ := if n ≤ 1 then n else isqrtAux n 800 (n / 2)

/-- Rational model of `Math.sqrt`: exact on squares of rationals (the only
inputs any theorem below evaluates it at), a floor approximation with 20
guard digits elsewhere; 0 on nonpositive input (JS gives NaN on negatives,
never produced here). -/
def sqrtQ (q : ℚ) : ℚ :=
  if q ≤ 0 then 0
  else (isqrt (q.num.toNat * q.den * 10 ^ 40) : ℚ) / ((q.den : ℚ) * 10 ^ 20)

/-- Largest `m` with `m^10 ≤ k` (helper for the `Math.pow(t, 0.7)` model). -/
def iroot10 (k : ℕ) : ℕ :=
  ((List.range (k + 2)).filter (fun m => m ^ 10 ≤ k)).foldl (fun _ m => m) 0

/-- Rational model of `Math.pow(t, 0.7) = (t^7)^(1/10)`: exact on perfect
10th powers — in particular at the band endpoints 0 and 1, the only points
any theorem evaluates it at. -/
def pow07 (t : ℚ) : ℚ :=
  if t ≤ 0 then 0
  else (iroot10 (t.num.toNat ^ 7 * t.den ^ 3) : ℚ) / (t.den : ℚ)

/-! ## Islands (islands.ts) -/

/-- `type IslandType = 'tropical' | 'rocky' | 'sandy'`. -/
inductive IslandType where
  | tropical | rocky | sandy
deriving DecidableEq, Repr

/-- The `Island` record. -/
structure Island where
  x : ℚ
  z : ℚ
  radius : ℚ
  heightMultiplier : ℚ
  noiseOffsetX : ℚ
  noiseOffsetZ : ℚ
  edgeFalloff : ℚ
  ty : IslandType
deriving DecidableEq, Repr

instance : Inhabited Island := ⟨⟨0, 0, 0, 0, 0, 0, 0, .tropical⟩⟩

/-- The full `WorldConfig` (islands.ts): generation + noise + water +
atmosphere options.  `islandCount` is an integer-valued JS number and kept
as ℤ so that `islandCount ≤ 0` is expressible. -/
structure WorldConfig where
  seed : SeedInput
  worldSize : ℚ
  resolution : ℚ
  islandCount : ℤ
  minIslandSize : ℚ
  maxIslandSize : ℚ
  noiseFrequency : ℚ
  noiseOctaves : ℕ
  noiseLacunarity : ℚ
  noisePersistence : ℚ
  waterHeight : ℚ
  waveHeight : ℚ
  waveSpeed : ℚ
  maxTerrainHeight : ℚ
  oceanDepth : ℚ
  fogDensity : ℚ
deriving DecidableEq, Repr

/-- generator.ts `DEFAULT_CONFIG`. -/
def DEFAULT_CONFIG : WorldConfig where
  seed := .numIn (.num 12345)
  worldSize := 400
  resolution := 120
  islandCount := 8
  minIslandSize := 25
  maxIslandSize := 70
  noiseFrequency := 2.5
  noiseOctaves := 5
  noiseLacunarity := 2.2
  noisePersistence := 0.45
  waterHeight := -1.0
  waveHeight := 1.2
  waveSpeed := 0.7
  maxTerrainHeight := 35
  oceanDepth := -15
  fogDensity := 0.004

/-! ## Poisson-disk sampling (islands.ts `IslandPlacer.poissonDisk`)

`Math.sqrt(2)` and `Math.cos`/`Math.sin` are irrational; they enter as
parameters (`sqrt2`, `twoPi`, `cosF`, `sinF`) so every theorem about the
placer holds for *any* values the floating-point library could return.
The unbounded `while (active.length > 0)` loop is run on explicit fuel
`2·gridW² + 2`, an upper bound on the source loop's iteration count (each
iteration either fills a fresh grid cell or removes an active entry). -/

/-- Cell coordinate `Math.floor((x + halfSize) / cellSize)`. -/
def cellC (halfSize cellSize x : ℚ) : ℤ := ⌊(x + halfSize) / cellSize⌋

/-- islands.ts `gridIndex`: flat index `gz * gridW + gx`, or `-1` when the
cell coordinates fall outside `[0, gridW)`. -/
def gridIndexQ (halfSize cellSize : ℚ) (gridW : ℕ) (x z : ℚ) : ℤ :=
  let gx := cellC halfSize cellSize x
  let gz := cellC halfSize cellSize z
  if gx < 0 ∨ (gridW : ℤ) ≤ gx ∨ gz < 0 ∨ (gridW : ℤ) ≤ gz then -1
  else gz * (gridW : ℤ) + gx

/-- The 5×5 neighborhood offsets `(dz, dx)`, in the source's scan order. -/
def neighborOffsets : List (ℤ × ℤ) :=
  [(-2, -2), (-2, -1), (-2, 0), (-2, 1), (-2, 2),
   (-1, -2), (-1, -1), (-1, 0), (-1, 1), (-1, 2),
   (0, -2), (0, -1), (0, 0), (0, 1), (0, 2),
   (1, -2), (1, -1), (1, 0), (1, 1), (1, 2),
   (2, -2), (2, -1), (2, 0), (2, 1), (2, 2)]

/-- The labeled `outer:` scan: true iff some grid cell in the 5×5 window
around `(gx, gz)` holds a point within `radius` of the candidate `(nx, nz)`
(squared-distance comparison, as in the source). -/
def tooCloseCheck (radius : ℚ) (grid : List ℤ) (points : List (ℚ × ℚ))
    (gridW : ℕ) (gx gz : ℤ) (nx nz : ℚ) : Bool :=
  neighborOffsets.any fun o =>
    let neighborGi := (gz + o.1) * (gridW : ℤ) + (gx + o.2)
    if neighborGi < 0 ∨ (grid.length : ℤ) ≤ neighborGi then false
    else
      let nIdx := grid.getD neighborGi.toNat (-1)
      if nIdx < 0 then false
      else
        let nb := points.getD nIdx.toNat (0, 0)
        decide ((nx - nb.1) * (nx - nb.1) + (nz - nb.2) * (nz - nb.2)
          < radius * radius)

/-- Static parameters of one `poissonDisk` run. -/
structure PDParams where
  radius : ℚ
  halfSize : ℚ
  cellSize : ℚ
  gridW : ℕ
  attempts : ℕ
  twoPi : ℚ
  cosF : ℚ → ℚ
  sinF : ℚ → ℚ

/-- Mutable state of one `poissonDisk` run. -/
structure PDState where
  points : List (ℚ × ℚ)
  grid : List ℤ
  active : List ℕ
  noise : SeededNoise

/-- Candidate check core: apply the bounds check, the grid-index check and
the 5×5 scan to a formed candidate `(nx, nz)`.  On acceptance, append the
point, register it in the grid and push it on the active list
(`found = true`); on any `continue`, only the PRNG state advances. -/
def pdTryCand (ps : PDParams) (nx nz : ℚ) (n1 : SeededNoise)
    (st : PDState) : PDState × Bool :=
  if |nx| > ps.halfSize * 0.95 ∨ |nz| > ps.halfSize * 0.95 then
    ({ st with noise := n1 }, false)
  else
    let ngi := gridIndexQ ps.halfSize ps.cellSize ps.gridW nx nz
    if ngi < 0 then ({ st with noise := n1 }, false)
    else
      let gx := cellC ps.halfSize ps.cellSize nx
      let gz := cellC ps.halfSize ps.cellSize nz
      if tooCloseCheck ps.radius st.grid st.points ps.gridW gx gz nx nz then
        ({ st with noise := n1 }, false)
      else
        ({ st with
            noise := n1
            points := st.points ++ [(nx, nz)]
            grid := st.grid.set ngi.toNat (st.points.length : ℤ)
            active := st.active ++ [st.points.length] }, true)

/-- One candidate attempt around `point`: draw an angle and a distance, form
the candidate and run the candidate check. -/
def pdTryOne (ps : PDParams) (point : ℚ × ℚ) (st : PDState) : PDState × Bool :=
  let d1 := st.noise.random
  let angle := d1.1 * ps.twoPi
  let d2 := d1.2.randomRange ps.radius (ps.radius * 2)
  let dist := d2.1
  let nx := point.1 + ps.cosF angle * dist
  let nz := point.2 + ps.sinF angle * dist
  pdTryCand ps nx nz d2.2 st

/-- The inner `for (i = 0; i < attempts; i++)` candidate loop around `point`:
repeat `pdTryOne` until acceptance (`break`) or attempts run out.  Returns
the updated state and whether a point was found. -/
def pdAttempts (ps : PDParams) (point : ℚ × ℚ) (k : ℕ) (st : PDState) :
    PDState × Bool :=
  Nat.rec (motive := fun _ => PDState → PDState × Bool)
    (fun st0 => (st0, false))
    (fun _ ih st0 =>
      if (pdTryOne ps point st0).2 then pdTryOne ps point st0
      else ih (pdTryOne ps point st0).1)
    k st

/-- One iteration of the outer `while (active.length > 0)` loop (assuming a
nonempty active list): pick a random active point, run the attempts loop
around it, and splice the point out of the active list when no candidate
succeeded. -/
def pdIter (ps : PDParams) (st : PDState) : PDState :=
  let d := st.noise.random
  let randIdx := (⌊d.1 * (st.active.length : ℚ)⌋).toNat
  let pointIdx := st.active.getD randIdx 0
  let point := st.points.getD pointIdx (0, 0)
  let r := pdAttempts ps point ps.attempts { st with noise := d.2 }
  if r.2 then r.1
  else { r.1 with active := r.1.active.eraseIdx randIdx }

/-- The outer `while (active.length > 0)` loop on fuel. -/
def pdLoop (ps : PDParams) (fuel : ℕ) (st : PDState) : PDState :=
  Nat.rec (motive := fun _ => PDState → PDState)
    (fun st0 => st0)
    (fun _ ih st0 => if st0.active.isEmpty then st0 else ih (pdIter ps st0))
    fuel st

/-- islands.ts `poissonDisk(radius, attempts = 30)`. -/
def poissonDisk (sqrt2 twoPi : ℚ) (cosF sinF : ℚ → ℚ) (worldSize : ℚ)
    (noise : SeededNoise) (radius : ℚ) (attempts : ℕ) :
    List (ℚ × ℚ) × SeededNoise :=
  let halfSize := worldSize / 2
  let cellSize := radius / sqrt2
  let gridW := (⌈worldSize / cellSize⌉).toNat
  let ps : PDParams := ⟨radius, halfSize, cellSize, gridW, attempts, twoPi, cosF, sinF⟩
  let f1 := noise.randomRange (-halfSize * 0.8) (halfSize * 0.8)
  let f2 := f1.2.randomRange (-halfSize * 0.8) (halfSize * 0.8)
  let firstX := f1.1
  let firstZ := f2.1
  let grid0 := List.replicate (gridW * gridW) (-1 : ℤ)
  let gi := gridIndexQ halfSize cellSize gridW firstX firstZ
  let grid1 := if 0 ≤ gi then grid0.set gi.toNat 0 else grid0
  let st0 : PDState := ⟨[(firstX, firstZ)], grid1, [0], f2.2⟩
  let stF := pdLoop ps (2 * gridW * gridW + 2) st0
  (stF.points, stF.noise)

/-! ## Island placement (islands.ts `IslandPlacer.placeIslands`) -/

/-- `determineIslandType()`: 50% tropical, 30% rocky, 20% sandy. -/
def determineIslandType (n : SeededNoise) : IslandType × SeededNoise :=
  let r := n.random
  (if r.1 < 0.5 then .tropical else if r.1 < 0.8 then .rocky else .sandy, r.2)

/-- The per-candidate loop body of `placeIslands` (islandCount ≥ 2 branch):
draw size, height multiplier and noise offsets, compute the edge falloff from
the distance to the world center, draw the type.  Returns the island and the
advanced noise state. -/
def islandStep (cfg : WorldConfig) (halfSize : ℚ) (p : ℚ × ℚ)
    (n : SeededNoise) : Island × SeededNoise :=
  let s1 := n.randomRange cfg.minIslandSize cfg.maxIslandSize
  let s2 := s1.2.randomRange 0.7 1.4
  let s3 := s2.2.randomRange (-100) 100
  let s4 := s3.2.randomRange (-100) 100
  let distFromCenter := sqrtQ (p.1 * p.1 + p.2 * p.2)
  let edgeFalloff := max 0 (1 - distFromCenter / (halfSize * 0.85))
  let s5 := determineIslandType s4.2
  ({ x := p.1, z := p.2, radius := s1.1, heightMultiplier := s2.1,
     noiseOffsetX := s3.1, noiseOffsetZ := s4.1,
     edgeFalloff := edgeFalloff, ty := s5.1 }, s5.2)

/-- The `for (i = 0; i < targetCount; i++)` island-building loop. -/
def buildIslandsAux (cfg : WorldConfig) (halfSize : ℚ) (l : List (ℚ × ℚ))
    (n : SeededNoise) : List Island × SeededNoise :=
  List.rec (motive := fun _ => SeededNoise → List Island × SeededNoise)
    (fun n0 => ([], n0))
    (fun p _ ih n0 =>
      ((islandStep cfg halfSize p n0).1 ::
          (ih (islandStep cfg halfSize p n0).2).1,
        (ih (islandStep cfg halfSize p n0).2).2))
    l n

/-- islands.ts `placeIslands()`:
`islandCount ≤ 0` → empty; `islandCount = 1` → one rocky island at the world
center; otherwise Poisson-disk candidates at spacing `avg(min,max)·2.5`, of
which the first `min(islandCount, candidates.length)` become islands. -/
def placeIslands (sqrt2 twoPi : ℚ) (cosF sinF : ℚ → ℚ) (cfg : WorldConfig)
    (noise : SeededNoise) : List Island × SeededNoise :=
  let halfSize := cfg.worldSize / 2
  if cfg.islandCount ≤ 0 then ([], noise)
  else if cfg.islandCount = 1 then
    let s1 := noise.randomRange cfg.minIslandSize cfg.maxIslandSize
    let s2 := s1.2.randomRange (-100) 100
    let s3 := s2.2.randomRange (-100) 100
    ([{ x := 0, z := 0, radius := s1.1, heightMultiplier := 1.5,
        noiseOffsetX := s2.1, noiseOffsetZ := s3.1,
        edgeFalloff := 1.0, ty := .rocky }], s3.2)
  else
    let avgRadius := (cfg.minIslandSize + cfg.maxIslandSize) / 2
    let spacing := avgRadius * 2.5
    let c := poissonDisk sqrt2 twoPi cosF sinF cfg.worldSize noise spacing 30
    let targetCount := min cfg.islandCount.toNat c.1.length
    buildIslandsAux cfg halfSize (c.1.take targetCount) c.2

/-! ## WorldGenerator (generator.ts) -/

/-- The observable state of a `WorldGenerator`: its config, its `SeededNoise`
and the generated island list (the THREE.js mesh fields are out of scope). -/
structure WorldGenerator where
  config : WorldConfig
  noise : SeededNoise
  islands : List Island
deriving Repr

/-- `new WorldGenerator(config)`: seeds the noise engine from the config;
does not yet generate islands. -/
def WorldGenerator.make (cfg : WorldConfig) : WorldGenerator :=
  ⟨cfg, SeededNoise.make cfg.seed, []⟩

/-- `reseed(seed)`: store the seed in the config and reseed the noise. -/
def WorldGenerator.reseedGen (g : WorldGenerator) (s : SeedInput) : WorldGenerator :=
  ⟨{ g.config with seed := s }, g.noise.reseed s, g.islands⟩

/-- `generate()`: reseed from the stored config seed, then place islands
(threading the shared noise stream through the placer). -/
def WorldGenerator.generate (sqrt2 twoPi : ℚ) (cosF sinF : ℚ → ℚ)
    (g : WorldGenerator) : WorldGenerator :=
  let n := g.noise.reseed g.config.seed
  let r := placeIslands sqrt2 twoPi cosF sinF g.config n
  ⟨g.config, r.2, r.1⟩

/-- The 3-band elevation-factor curve of `getHeightAt` over the normalized
distance: interior (`< 0.4`), beach (`0.4 ≤ · < 0.7`,
`1 - ((t-0.4)/0.3)^0.7 · 0.85`), underwater slope
(`0.15 · (1 - ((t-0.7)/0.3)^0.5)`). -/
def elevationFactor (nd : ℚ) : ℚ :=
  if nd < 0.4 then 1
  else if nd < 0.7 then 1 - pow07 ((nd - 0.4) / 0.3) * 0.85
  else 0.15 * (1 - sqrtQ ((nd - 0.7) / 0.3))

/-- Accumulator of the island loop in `getHeightAt`: the running best blend
and blended height, plus the closest-island tracking the source keeps (it is
never read for the height; kept for fidelity, `Infinity` as `none`). -/
structure HBlend where
  highestBlend : ℚ
  blended : ℚ
  closestDist : Option ℚ
  closest : Option Island

/-- The `dist < closestDist` update at the top of the island loop. -/
def updateClosest (acc : HBlend) (isl : Island) (dist : ℚ) : HBlend :=
  match acc.closestDist with
  | none => { acc with closestDist := some dist, closest := some isl }
  | some d =>
    if dist < d then { acc with closestDist := some dist, closest := some isl }
    else acc

/-- One iteration of the island loop of `getHeightAt`. -/
def heightStep (cfg : WorldConfig) (perm : List ℕ) (x z : ℚ)
    (acc0 : HBlend) (isl : Island) : HBlend :=
  let dx := x - isl.x
  let dz := z - isl.z
  let dist := sqrtQ (dx * dx + dz * dz)
  let acc := updateClosest acc0 isl dist
  let slopeRadius := isl.radius * 1.8
  if dist > slopeRadius then acc
  else
    let nd := dist / slopeRadius
    let ef := elevationFactor nd
    if ef < 0.01 then acc
    else
      let nx := (x + isl.noiseOffsetX) / isl.radius * cfg.noiseFrequency
      let nz := (z + isl.noiseOffsetZ) / isl.radius * cfg.noiseFrequency
      let raw := (fbm perm nx nz cfg.noiseOctaves cfg.noiseLacunarity
        cfg.noisePersistence + 1) / 2
      let detail :=
        if 0.25 < nd ∧ nd < 0.7 then noise2D perm (nx * 3) (nz * 3) * 0.8 else 0
      let islandHeight :=
        (raw * cfg.maxTerrainHeight * isl.heightMultiplier + detail) * ef
      let blendFactor := max 0 (1 - nd)
      if blendFactor > acc.highestBlend then
        { acc with
            highestBlend := blendFactor
            blended := cfg.oceanDepth + (islandHeight - cfg.oceanDepth) *
              (blendFactor * blendFactor * (3 - 2 * blendFactor)) }
      else acc

/-- generator.ts `getHeightAt(x, z)`: closest-island-dominant blend over all
islands, plus the low-frequency seabed variation whenever the best blend is
below 0.5. -/
def WorldGenerator.getHeightAt (g : WorldGenerator) (x z : ℚ) : ℚ :=
  let acc0 : HBlend := ⟨0, g.config.oceanDepth, none, none⟩
  let acc := g.islands.foldl (heightStep g.config g.noise.perm x z) acc0
  if acc.highestBlend < 0.5 then
    acc.blended +
      fbm g.noise.perm (x * 0.01) (z * 0.01) 3 2 0.5 * 3 * (1 - acc.highestBlend)
  else acc.blended

/-- `sampleHeight` is an alias for `getHeightAt`. -/
def WorldGenerator.sampleHeight (g : WorldGenerator) (x z : ℚ) : ℚ :=
  g.getHeightAt x z

/-- `getIslands()` returns a (defensive copy of) the island array. -/
def WorldGenerator.getIslands (g : WorldGenerator) : List Island := g.islands

/-- A spawn position `{x, y, z}`. -/
structure Vec3q where
  x : ℚ
  y : ℚ
  z : ℚ
deriving DecidableEq, Repr

/-- generator.ts `getSpawnPosition()`: `(0,50,0)` when no islands; otherwise
the first island's center with `y = max(height + 5, 10)`. -/
def WorldGenerator.getSpawnPosition (g : WorldGenerator) : Vec3q :=
  match g.islands with
  | [] => ⟨0, 50, 0⟩
  | isl :: _ => ⟨isl.x, max (g.getHeightAt isl.x isl.z + 5) 10, isl.z⟩

/-! ## Predicates used by the specification theorems -/

/-- The permutation-table invariant: length 512, first 256 entries a
permutation of `0..255`, second half a copy of the first. -/
def PermTableOK (t : List ℕ) : Prop :=
  t.length = 512 ∧ (t.take 256).Perm (List.range 256) ∧
    ∀ i < 256, t.getD (i + 256) 0 = t.getD i 0

/-- Two islands that agree on every field except possibly `edgeFalloff`. -/
def AgreeExceptEdgeFalloff (a b : Island) : Prop :=
  a.x = b.x ∧ a.z = b.z ∧ a.radius = b.radius ∧
  a.heightMultiplier = b.heightMultiplier ∧
  a.noiseOffsetX = b.noiseOffsetX ∧ a.noiseOffsetZ = b.noiseOffsetZ ∧
  a.ty = b.ty

instance : ∀ a b, Decidable (AgreeExceptEdgeFalloff a b) :=
  fun _ _ => inferInstanceAs (Decidable (_ ∧ _))

/-- Minimum-spacing relation between two planar points (squared form; the ℚ
model states `dist ≥ r` as `dist² ≥ r²`). -/
def FarPoints (r : ℚ) (p q : ℚ × ℚ) : Prop :=
  r ^ 2 ≤ (p.1 - q.1) ^ 2 + (p.2 - q.2) ^ 2

/-- Loop invariant of one `poissonDisk` run: the grid has its allocated size,
every placed point sits in a valid grid cell, the grid maps each point's cell
back to that point's index, and all points are pairwise at least the sampling
radius apart. -/
structure PDInv (ps : PDParams) (st : PDState) : Prop where
  gl : st.grid.length = ps.gridW * ps.gridW
  cellB : ∀ i, i < st.points.length →
    0 ≤ cellC ps.halfSize ps.cellSize (st.points.getD i (0, 0)).1 ∧
    cellC ps.halfSize ps.cellSize (st.points.getD i (0, 0)).1 < (ps.gridW : ℤ) ∧
    0 ≤ cellC ps.halfSize ps.cellSize (st.points.getD i (0, 0)).2 ∧
    cellC ps.halfSize ps.cellSize (st.points.getD i (0, 0)).2 < (ps.gridW : ℤ)
  reg : ∀ i, i < st.points.length →
    st.grid.getD (cellC ps.halfSize ps.cellSize (st.points.getD i (0, 0)).2 *
      (ps.gridW : ℤ) + cellC ps.halfSize ps.cellSize (st.points.getD i (0, 0)).1).toNat
      (-1) = (i : ℤ)
  far : st.points.Pairwise (FarPoints ps.radius)

/-! ## Helper lemmas: PRNG output bounds -/

set_option maxRecDepth 4000

theorem mulberry32Next_snd_nonneg (a : ℕ) : 0 ≤ (mulberry32Next a).2 := by
  unfold mulberry32Next
  positivity

theorem mulberry32Next_snd_lt_one (a : ℕ) : (mulberry32Next a).2 < 1 := by
  unfold mulberry32Next
  have hU : (U32 : ℕ) = 2 ^ 32 := by decide
  rw [div_lt_one (by norm_num [U32])]
  have h1 : ((a + 0x6D2B79F5) % U32) < U32 := Nat.mod_lt _ (by norm_num [U32])
  set a1 := (a + 0x6D2B79F5) % U32 with ha1
  have ht1 : ((a1 ^^^ (a1 >>> 15)) * (a1 ||| 1)) % U32 < U32 :=
    Nat.mod_lt _ (by norm_num [U32])
  set t1 := ((a1 ^^^ (a1 >>> 15)) * (a1 ||| 1)) % U32 with ht1e
  have ht2 : (((t1 + ((t1 ^^^ (t1 >>> 7)) * (t1 ||| 61)) % U32) % U32) ^^^ t1) < U32 := by
    rw [hU]
    exact Nat.xor_lt_two_pow (by rw [← hU]; exact Nat.mod_lt _ (by norm_num [U32]))
      (by rw [← hU]; exact ht1)
  set t2 := ((t1 + ((t1 ^^^ (t1 >>> 7)) * (t1 ||| 61)) % U32) % U32) ^^^ t1 with ht2e
  have ho : t2 ^^^ (t2 >>> 14) < U32 := by
    rw [hU]
    refine Nat.xor_lt_two_pow (by rw [← hU]; exact ht2) ?_
    calc t2 >>> 14 ≤ t2 := by
          rw [Nat.shiftRight_eq_div_pow]; exact Nat.div_le_self _ _
      _ < 2 ^ 32 := by rw [← hU]; exact ht2
  exact_mod_cast ho

theorem random_nonneg (n : SeededNoise) : 0 ≤ n.random.1 :=
  mulberry32Next_snd_nonneg n.a

theorem random_lt_one (n : SeededNoise) : n.random.1 < 1 :=
  mulberry32Next_snd_lt_one n.a

theorem randomRange_mem (n : SeededNoise) (lo hi : ℚ) (h : lo ≤ hi) :
    lo ≤ (n.randomRange lo hi).1 ∧ (n.randomRange lo hi).1 ≤ hi := by
  have h0 := random_nonneg n
  have h1 := random_lt_one n
  constructor
  · show lo ≤ lo + n.random.1 * (hi - lo)
    nlinarith
  · show lo + n.random.1 * (hi - lo) ≤ hi
    nlinarith

/-! ## Helper lemmas: noise value bounds -/

theorem fade_bounds {t : ℚ} (h0 : 0 ≤ t) (h1 : t ≤ 1) :
    0 ≤ fade t ∧ fade t ≤ 1 := by
  unfold fade
  have hq : (0:ℚ) ≤ t * (t * 6 - 15) + 10 := by nlinarith [sq_nonneg (4 * t - 5)]
  have hc : (0:ℚ) ≤ 6 * t ^ 2 + 3 * t + 1 := by nlinarith [sq_nonneg (12 * t + 3)]
  have h3 : (0:ℚ) ≤ t * t * t := by positivity
  have hm : (0:ℚ) ≤ (1 - t) * (1 - t) * (1 - t) * (6 * t ^ 2 + 3 * t + 1) := by
    have h1t : (0:ℚ) ≤ 1 - t := by linarith
    have : (0:ℚ) ≤ (1 - t) * (1 - t) * (1 - t) := by positivity
    exact mul_nonneg this hc
  constructor
  · exact mul_nonneg h3 hq
  · nlinarith [hm]

theorem grad_abs_le (h : ℕ) {x y : ℚ} (hx : |x| ≤ 1) (hy : |y| ≤ 1) :
    |grad h x y| ≤ 3 := by
  obtain ⟨hx1, hx2⟩ := abs_le.mp hx
  obtain ⟨hy1, hy2⟩ := abs_le.mp hy
  simp only [grad]
  split_ifs <;> rw [abs_le] <;> constructor <;> linarith

theorem lerpN_abs_le {a b t M : ℚ} (ha : |a| ≤ M) (hb : |b| ≤ M)
    (h0 : 0 ≤ t) (h1 : t ≤ 1) : |lerpN a b t| ≤ M := by
  obtain ⟨ha1, ha2⟩ := abs_le.mp ha
  obtain ⟨hb1, hb2⟩ := abs_le.mp hb
  unfold lerpN
  rw [abs_le]
  constructor <;> nlinarith

theorem noise2D_abs_le (perm : List ℕ) (x y : ℚ) : |noise2D perm x y| ≤ 3 := by
  unfold noise2D
  have hxf0 : (0:ℚ) ≤ x - (⌊x⌋ : ℚ) := by
    rw [Int.self_sub_floor]; exact Int.fract_nonneg x
  have hxf1 : x - (⌊x⌋ : ℚ) ≤ 1 := by
    rw [Int.self_sub_floor]; exact le_of_lt (Int.fract_lt_one x)
  have hyf0 : (0:ℚ) ≤ y - (⌊y⌋ : ℚ) := by
    rw [Int.self_sub_floor]; exact Int.fract_nonneg y
  have hyf1 : y - (⌊y⌋ : ℚ) ≤ 1 := by
    rw [Int.self_sub_floor]; exact le_of_lt (Int.fract_lt_one y)
  have hxa : |x - (⌊x⌋ : ℚ)| ≤ 1 := abs_le.mpr ⟨by linarith, hxf1⟩
  have hya : |y - (⌊y⌋ : ℚ)| ≤ 1 := abs_le.mpr ⟨by linarith, hyf1⟩
  have hxa1 : |x - (⌊x⌋ : ℚ) - 1| ≤ 1 := abs_le.mpr ⟨by linarith, by linarith⟩
  have hya1 : |y - (⌊y⌋ : ℚ) - 1| ≤ 1 := abs_le.mpr ⟨by linarith, by linarith⟩
  obtain ⟨hu0, hu1⟩ := fade_bounds hxf0 hxf1
  obtain ⟨hv0, hv1⟩ := fade_bounds hyf0 hyf1
  exact lerpN_abs_le
    (lerpN_abs_le (grad_abs_le _ hxa hya) (grad_abs_le _ hxa1 hya) hu0 hu1)
    (lerpN_abs_le (grad_abs_le _ hxa hya1) (grad_abs_le _ hxa1 hya1) hu0 hu1)
    hv0 hv1

theorem fbmAux_bound (perm : List ℕ) (x y lac pers : ℚ) (hp : 0 < pers) :
    ∀ (oct : ℕ) (amp freq : ℚ), 0 < amp →
      |(fbmAux perm x y lac pers oct amp freq).1| ≤
        3 * (fbmAux perm x y lac pers oct amp freq).2 ∧
      0 ≤ (fbmAux perm x y lac pers oct amp freq).2 := by
  intro oct
  induction oct with
  | zero => intro amp freq _; simp [fbmAux]
  | succ k ih =>
    intro amp freq hamp
    have hrec := ih (amp * pers) (freq * lac) (mul_pos hamp hp)
    have hn := noise2D_abs_le perm (x * freq) (y * freq)
    simp only [fbmAux]
    constructor
    · calc |noise2D perm (x * freq) (y * freq) * amp +
          (fbmAux perm x y lac pers k (amp * pers) (freq * lac)).1|
          ≤ |noise2D perm (x * freq) (y * freq) * amp| +
            |(fbmAux perm x y lac pers k (amp * pers) (freq * lac)).1| := abs_add _ _
        _ ≤ 3 * amp + 3 * (fbmAux perm x y lac pers k (amp * pers) (freq * lac)).2 := by
            refine add_le_add ?_ hrec.1
            rw [abs_mul, abs_of_pos hamp]
            exact mul_le_mul_of_nonneg_right hn (le_of_lt hamp)
        _ = 3 * (amp + (fbmAux perm x y lac pers k (amp * pers) (freq * lac)).2) := by ring
    · have := hrec.2
      linarith

/-- The fbm output bound shared by the C4 and C7 theorems. -/
theorem fbm_abs_le (perm : List ℕ) (x y : ℚ) (oct : ℕ) (lac : ℚ) {pers : ℚ}
    (hp : 0 < pers) : |fbm perm x y oct lac pers| ≤ 3 := by
  show |(fbmAux perm x y lac pers oct 1 1).1 / (fbmAux perm x y lac pers oct 1 1).2| ≤ 3
  obtain ⟨h1, h2⟩ := fbmAux_bound perm x y lac pers hp oct 1 1 one_pos
  rcases eq_or_lt_of_le h2 with h0 | h0
  · have : (fbmAux perm x y lac pers oct 1 1).1 = 0 := by
      have := abs_nonneg (fbmAux perm x y lac pers oct 1 1).1
      rw [← h0] at h1
      have : |(fbmAux perm x y lac pers oct 1 1).1| = 0 := le_antisymm (by linarith) this
      exact abs_eq_zero.mp this
    rw [this, zero_div, abs_zero]
    norm_num
  · rw [abs_div, abs_of_pos h0, div_le_iff₀ h0]
    linarith [h1]

/-! ## Helper lemmas: generation normal forms -/

/-- `reseed` replaces the whole noise state by a function of the seed alone —
the prior PRNG state and table are discarded. -/
theorem reseed_eq (n : SeededNoise) (s : SeedInput) :
    n.reseed s = ⟨canonReseedSeed s,
      (buildPermutation (jsToUint32 (canonReseedSeed s))).2,
      (buildPermutation (jsToUint32 (canonReseedSeed s))).1⟩ := rfl

/-- `getHeightAt` on an island-free world: the ocean depth plus the seabed
fbm term at full weight. -/
theorem getHeightAt_of_no_islands (W : WorldGenerator) (h : W.islands = [])
    (x z : ℚ) :
    W.getHeightAt x z =
      W.config.oceanDepth + 3 * fbm W.noise.perm (x * 0.01) (z * 0.01) 3 2 0.5 := by
  unfold WorldGenerator.getHeightAt
  rw [h]
  show (if (0:ℚ) < 0.5 then
      W.config.oceanDepth + fbm W.noise.perm (x * 0.01) (z * 0.01) 3 2 0.5 * 3 * (1 - 0)
    else W.config.oceanDepth) = _
  rw [if_pos (by norm_num)]
  ring

/-! ## C1 — determinism -/

/-- C1: Determinism.  For any two `WorldGenerator` states with the same
config (in particular two instances freshly built from it), `generate()`
produces element-wise identical island lists and identical `getHeightAt`
values at every coordinate.  This holds because `generate()` first reseeds
the noise stream from the stored config seed, discarding all prior noise
state; the irrational-library parameters (`sqrt2`, `twoPi`, `cosF`, `sinF`)
are shared, as both instances call the same Math library. -/
theorem determinism_same_config (sqrt2 twoPi : ℚ) (cosF sinF : ℚ → ℚ)
    (g1 g2 : WorldGenerator) (h : g1.config = g2.config) :
    (g1.generate sqrt2 twoPi cosF sinF).islands =
      (g2.generate sqrt2 twoPi cosF sinF).islands ∧
    ∀ x z : ℚ, (g1.generate sqrt2 twoPi cosF sinF).getHeightAt x z =
      (g2.generate sqrt2 twoPi cosF sinF).getHeightAt x z := by
  have hg : g1.generate sqrt2 twoPi cosF sinF = g2.generate sqrt2 twoPi cosF sinF := by
    unfold WorldGenerator.generate
    rw [reseed_eq, reseed_eq, h]
  exact ⟨by rw [hg], fun x z => by rw [hg]⟩

/-- Witness for C1: a freshly constructed generator and a generator whose
noise state was tampered with, sharing the default config. -/
theorem determinism_same_config_witness :
    (WorldGenerator.make DEFAULT_CONFIG).config =
      (WorldGenerator.mk DEFAULT_CONFIG ⟨.nan, 99, []⟩ []).config ∧
    (((WorldGenerator.make DEFAULT_CONFIG).generate (3/2) 6 (fun _ => 1)
        (fun _ => 0)).islands =
      ((WorldGenerator.mk DEFAULT_CONFIG ⟨.nan, 99, []⟩ []).generate (3/2) 6
        (fun _ => 1) (fun _ => 0)).islands ∧
    ∀ x z : ℚ,
      ((WorldGenerator.make DEFAULT_CONFIG).generate (3/2) 6 (fun _ => 1)
        (fun _ => 0)).getHeightAt x z =
      ((WorldGenerator.mk DEFAULT_CONFIG ⟨.nan, 99, []⟩ []).generate (3/2) 6
        (fun _ => 1) (fun _ => 0)).getHeightAt x z) :=
  ⟨rfl, determinism_same_config (3/2) 6 (fun _ => 1) (fun _ => 0) _ _ rfl⟩

/-! ## C4 — empty-ocean world -/

/-- C4: Empty-ocean world.  `islandCount ≤ 0` yields an empty island list
(not an error), and every height sample equals
`oceanDepth + 3 · fbm(x·0.01, z·0.01, 3, 2, 0.5)`, hence stays within 9
units of `oceanDepth` (the seabed-variation term is bounded by `3·|fbm| ≤ 9`;
in practice far smaller). -/
theorem emptyOcean_world (sqrt2 twoPi : ℚ) (cosF sinF : ℚ → ℚ)
    (g : WorldGenerator) (h : g.config.islandCount ≤ 0) :
    (g.generate sqrt2 twoPi cosF sinF).islands = [] ∧
    ∀ x z : ℚ,
      (g.generate sqrt2 twoPi cosF sinF).getHeightAt x z =
        g.config.oceanDepth +
          3 * fbm (g.generate sqrt2 twoPi cosF sinF).noise.perm
            (x * 0.01) (z * 0.01) 3 2 0.5 ∧
      |(g.generate sqrt2 twoPi cosF sinF).getHeightAt x z - g.config.oceanDepth| ≤ 9 := by
  have hisl : (g.generate sqrt2 twoPi cosF sinF).islands = [] := by
    show (placeIslands sqrt2 twoPi cosF sinF g.config
      (g.noise.reseed g.config.seed)).1 = []
    unfold placeIslands
    rw [if_pos h]
  refine ⟨hisl, fun x z => ?_⟩
  have heq := getHeightAt_of_no_islands _ hisl x z
  refine ⟨heq, ?_⟩
  rw [heq]
  have hb := fbm_abs_le ((g.generate sqrt2 twoPi cosF sinF).noise.perm)
    (x * 0.01) (z * 0.01) 3 2 (by norm_num : (0:ℚ) < 0.5)
  rw [show (g.generate sqrt2 twoPi cosF sinF).config.oceanDepth =
      g.config.oceanDepth from rfl]
  rw [show (g.config.oceanDepth +
      3 * fbm (g.generate sqrt2 twoPi cosF sinF).noise.perm
        (x * 0.01) (z * 0.01) 3 2 0.5 - g.config.oceanDepth) =
      3 * fbm (g.generate sqrt2 twoPi cosF sinF).noise.perm
        (x * 0.01) (z * 0.01) 3 2 0.5 by ring]
  rw [abs_mul]
  rw [show |(3:ℚ)| = 3 by norm_num]
  linarith

/-- Witness for C4: the default config with `islandCount := 0`, sampled at
`(7, -3)`. -/
theorem emptyOcean_world_witness :
    ({ DEFAULT_CONFIG with islandCount := 0 } : WorldConfig).islandCount ≤ 0 ∧
    ((WorldGenerator.make { DEFAULT_CONFIG with islandCount := 0 }).generate
        (3/2) 6 (fun _ => 1) (fun _ => 0)).islands = [] ∧
    (((WorldGenerator.make { DEFAULT_CONFIG with islandCount := 0 }).generate
        (3/2) 6 (fun _ => 1) (fun _ => 0)).getHeightAt 7 (-3) =
      ({ DEFAULT_CONFIG with islandCount := 0 } : WorldConfig).oceanDepth +
        3 * fbm (((WorldGenerator.make { DEFAULT_CONFIG with islandCount := 0 }).generate
          (3/2) 6 (fun _ => 1) (fun _ => 0)).noise.perm)
          (7 * 0.01) ((-3) * 0.01) 3 2 0.5 ∧
      |((WorldGenerator.make { DEFAULT_CONFIG with islandCount := 0 }).generate
          (3/2) 6 (fun _ => 1) (fun _ => 0)).getHeightAt 7 (-3) -
        ({ DEFAULT_CONFIG with islandCount := 0 } : WorldConfig).oceanDepth| ≤ 9) := by
  refine ⟨by decide, ?_, ?_⟩
  · exact (emptyOcean_world (3/2) 6 (fun _ => 1) (fun _ => 0) _ (by decide)).1
  · exact (emptyOcean_world (3/2) 6 (fun _ => 1) (fun _ => 0) _ (by decide)).2 7 (-3)

/-! ## C7 — fbm boundedness -/

/-- C7: fbm boundedness.  For every permutation table, input point, octave
count and lacunarity, and every positive persistence, `|fbm| ≤ 3`: the
normalization by the sum of octave amplitudes makes the bound independent of
the octave count (3 is the gradient-value bound of `noise2D`). -/
theorem fbm_bounded_all_octaves (perm : List ℕ) (x y : ℚ) (octaves : ℕ)
    (lac : ℚ) {pers : ℚ} (hp : 0 < pers) :
    |fbm perm x y octaves lac pers| ≤ 3 :=
  fbm_abs_le perm x y octaves lac hp

/-- Witness for C7: the default fbm parameters on an arbitrary table. -/
theorem fbm_bounded_all_octaves_witness :
    (0:ℚ) < 0.5 ∧ |fbm [7, 3] 11 (-4) 6 2 0.5| ≤ 3 :=
  ⟨by norm_num, fbm_bounded_all_octaves [7, 3] 11 (-4) 6 2 (by norm_num)⟩

/-! ## C5 — invalid-seed fallback (corrected) -/

/-- C5 amended: the NaN/0 fallback to seed 12345 happens in the constructor
only; `reseed` stores the seed unchanged, and a NaN seed reaches
`mulberry32` where `seed >>> 0` coerces it to 0 — so `reseed(NaN)` produces
exactly the noise state of `reseed(0)`, not that of the default seed. -/
theorem seed_fallback_amended :
    (SeededNoise.make (.numIn .nan)).seedVal = NumVal.num 12345 ∧
    (SeededNoise.make (.numIn (.num 0))).seedVal = NumVal.num 12345 ∧
    (∀ q : ℚ, q ≠ 0 →
      (SeededNoise.make (.numIn (.num q))).seedVal = NumVal.num q) ∧
    (∀ n : SeededNoise, (n.reseed (.numIn .nan)).seedVal = NumVal.nan) ∧
    (∀ n : SeededNoise,
      (n.reseed (.numIn .nan)).a = (n.reseed (.numIn (.num 0))).a ∧
      (n.reseed (.numIn .nan)).perm = (n.reseed (.numIn (.num 0))).perm) := by
  refine ⟨rfl, rfl, fun q hq => ?_, fun n => rfl, fun n => ⟨rfl, rfl⟩⟩
  show (if q = 0 then NumVal.num 12345 else NumVal.num q) = NumVal.num q
  rw [if_neg hq]

/-- Witness for the amended C5: a nonzero numeric seed is kept as-is. -/
theorem seed_fallback_amended_witness :
    (5:ℚ) ≠ 0 ∧ (SeededNoise.make (.numIn (.num 5))).seedVal = NumVal.num 5 :=
  ⟨by norm_num, seed_fallback_amended.2.2.1 5 (by norm_num)⟩

/-! ## Helper lemmas: Fisher–Yates shuffle (C9) -/

/-- Swapping two in-range positions of a list yields a permutation of it. -/
theorem listSwap_perm {p : List ℕ} {i j : ℕ} (hi : i < p.length)
    (hj : j < p.length) : (listSwap p i j).Perm p := by
  rw [List.perm_iff_count]
  intro b
  unfold listSwap
  have hj1 : j < (p.set i (p.getD j 0)).length := by simpa using hj
  have hgd_j : p.getD j 0 = p[j] := List.getD_eq_getElem p 0 hj
  have hgd_i : p.getD i 0 = p[i] := List.getD_eq_getElem p 0 hi
  have hset_j : (p.set i (p.getD j 0))[j] = p.getD j 0 := by
    by_cases h : i = j
    · subst h; exact List.getElem_set_self hj1
    · rw [List.getElem_set, if_neg h]
      exact hgd_j.symm
  have hAle : (if (p[i] == b) = true then 1 else 0) ≤ List.count b p := by
    by_cases h : p[i] = b
    · simp only [h, beq_self_eq_true, if_pos rfl]
      exact List.count_pos_iff.mpr (h ▸ List.getElem_mem hi)
    · simp [h]
  rw [List.count_set _ _ _ _ hj1, List.count_set _ _ _ _ hi, hset_j, hgd_i, hgd_j]
  omega

/-- One-step unfolding of the Fisher–Yates loop. -/
theorem buildPermAux_succ (a : ℕ) (p : List ℕ) (k : ℕ) :
    buildPermAux (k + 1) a p =
      buildPermAux k (fyStep a p (k + 1)).1 (fyStep a p (k + 1)).2 := rfl

/-- The two components of a Fisher–Yates step. -/
theorem fyStep_eq (a : ℕ) (p : List ℕ) (v : ℕ) :
    fyStep a p v = ((mulberry32Next a).1,
      listSwap p v (⌊(mulberry32Next a).2 * ((v : ℚ) + 1)⌋).toNat) := rfl

/-- The Fisher–Yates loop preserves list length. -/
theorem buildPermAux_length (k : ℕ) :
    ∀ (a : ℕ) (p : List ℕ), (buildPermAux k a p).1.length = p.length := by
  induction k with
  | zero => intro a p; rfl
  | succ m ih =>
    intro a p
    rw [buildPermAux_succ, ih, fyStep_eq]
    unfold listSwap
    simp

/-- The Fisher–Yates loop output is a permutation of its input whenever the
loop range fits in the list (the drawn index `⌊rng()·(v+1)⌋` is always `≤ v`
because the PRNG output lies in `[0,1)`). -/
theorem buildPermAux_perm (k : ℕ) :
    ∀ (a : ℕ) (p : List ℕ), k < p.length → (buildPermAux k a p).1.Perm p := by
  induction k with
  | zero => intro a p _; exact List.Perm.refl p
  | succ m ih =>
    intro a p hk
    have h0 := mulberry32Next_snd_nonneg a
    have h1 := mulberry32Next_snd_lt_one a
    have hjlt : (⌊(mulberry32Next a).2 * ((m + 1 : ℕ) + 1 : ℚ)⌋).toNat < p.length := by
      have hflt : ⌊(mulberry32Next a).2 * ((m + 1 : ℕ) + 1 : ℚ)⌋ < (m + 2 : ℤ) := by
        rw [Int.floor_lt]
        push_cast
        nlinarith
      omega
    have hswap : ((fyStep a p (m + 1)).2).Perm p := by
      rw [fyStep_eq]
      exact listSwap_perm hk hjlt
    have hlen : ((fyStep a p (m + 1)).2).length = p.length := hswap.length_eq
    rw [buildPermAux_succ]
    exact List.Perm.trans (ih _ _ (by omega)) hswap

/-- The permutation-table invariant holds for every table built by
`_buildPermutation`, whatever the PRNG state. -/
theorem buildPermutation_ok (a : ℕ) : PermTableOK (buildPermutation a).1 := by
  have hperm : (buildPermAux 255 a (List.range 256)).1.Perm (List.range 256) :=
    buildPermAux_perm 255 a (List.range 256) (by simp)
  have hlen : (buildPermAux 255 a (List.range 256)).1.length = 256 := by
    rw [buildPermAux_length]; simp
  unfold PermTableOK
  simp only [buildPermutation]
  generalize hq : (buildPermAux 255 a (List.range 256)).1 = q at hperm hlen ⊢
  refine ⟨by simp [hlen], ?_, ?_⟩
  · conv_lhs => rw [show (256 : ℕ) = q.length from hlen.symm]
    rw [List.take_left]
    exact hperm
  · intro i hi
    rw [List.getD_append_right q q 0 (i + 256) (by omega),
      List.getD_append q q 0 i (by omega), hlen]
    congr 1

/-! ## C9 — permutation-table invariant -/

/-- C9: after construction and after every `reset()`/`reseed()`, the
permutation table has length 512, its first 256 entries are a seeded-shuffled
permutation of `0..255`, and entry `i+256` equals entry `i` for all
`i < 256`. -/
theorem permutation_table_invariant (s : SeedInput) (n : SeededNoise) :
    PermTableOK (SeededNoise.make s).perm ∧ PermTableOK n.reset.perm ∧
      PermTableOK (n.reseed s).perm :=
  ⟨buildPermutation_ok _, buildPermutation_ok _, buildPermutation_ok _⟩

/-! ## C6 — single-island placement (corrected) -/

/-- C6 amended: with `islandCount = 1` and a well-ordered size range
(`minIslandSize ≤ maxIslandSize`), `placeIslands` returns exactly one island
at the world center `(0,0)`, of type rocky, with `heightMultiplier = 1.5`,
`edgeFalloff = 1.0`, and radius in `[minIslandSize, maxIslandSize]`.  (For
`minIslandSize > maxIslandSize` the radius lands strictly between the two
sizes, hence outside the then-empty interval `[min, max]` — see the
counterexample.) -/
theorem single_island_placement (sqrt2 twoPi : ℚ) (cosF sinF : ℚ → ℚ)
    (cfg : WorldConfig) (noise : SeededNoise) (h1 : cfg.islandCount = 1)
    (h2 : cfg.minIslandSize ≤ cfg.maxIslandSize) :
    ∃ isl : Island,
      (placeIslands sqrt2 twoPi cosF sinF cfg noise).1 = [isl] ∧
      isl.x = 0 ∧ isl.z = 0 ∧ isl.ty = .rocky ∧ isl.heightMultiplier = 1.5 ∧
      isl.edgeFalloff = 1 ∧
      cfg.minIslandSize ≤ isl.radius ∧ isl.radius ≤ cfg.maxIslandSize := by
  obtain ⟨hlo, hhi⟩ := randomRange_mem noise cfg.minIslandSize cfg.maxIslandSize h2
  refine ⟨⟨0, 0, (noise.randomRange cfg.minIslandSize cfg.maxIslandSize).1, 1.5,
      ((noise.randomRange cfg.minIslandSize cfg.maxIslandSize).2.randomRange
        (-100) 100).1,
      (((noise.randomRange cfg.minIslandSize cfg.maxIslandSize).2.randomRange
        (-100) 100).2.randomRange (-100) 100).1,
      1.0, .rocky⟩, ?_, rfl, rfl, rfl, rfl, by norm_num, hlo, hhi⟩
  simp only [placeIslands]
  rw [if_neg (by omega), if_pos h1]

/-- Witness for the amended C6: the default config with `islandCount := 1`. -/
theorem single_island_placement_witness :
    ({ DEFAULT_CONFIG with islandCount := 1 } : WorldConfig).islandCount = 1 ∧
    ({ DEFAULT_CONFIG with islandCount := 1 } : WorldConfig).minIslandSize ≤
      ({ DEFAULT_CONFIG with islandCount := 1 } : WorldConfig).maxIslandSize ∧
    ∃ isl : Island,
      (placeIslands (3/2) 6 (fun _ => 1) (fun _ => 0)
        { DEFAULT_CONFIG with islandCount := 1 }
        (SeededNoise.make (SeedInput.numIn (NumVal.num 7)))).1 = [isl] ∧
      isl.x = 0 ∧ isl.z = 0 ∧ isl.ty = .rocky ∧ isl.heightMultiplier = 1.5 ∧
      isl.edgeFalloff = 1 ∧
      ({ DEFAULT_CONFIG with islandCount := 1 } : WorldConfig).minIslandSize ≤
        isl.radius ∧
      isl.radius ≤
        ({ DEFAULT_CONFIG with islandCount := 1 } : WorldConfig).maxIslandSize :=
  ⟨rfl, by norm_num [DEFAULT_CONFIG],
    single_island_placement (3/2) 6 (fun _ => 1) (fun _ => 0) _ _ rfl
      (by norm_num [DEFAULT_CONFIG])⟩

/-! ## C8 — spawn position (corrected) -/

/-- C8 amended: with no islands the spawn is `(0, 50, 0)`; with islands it is
the first island's center with `y = max(height + 5, 10)` — at least 5 units
above the terrain and at least 10 units of absolute height.  The absolute
floor of 10 is at least 10 units above sea level exactly when
`waterHeight ≤ 0` (true for the default `-1`); for positive `waterHeight`
the original "10 units above sea level" reading fails (see the
counterexample). -/
theorem spawn_position_amended (g : WorldGenerator) :
    (g.islands = [] → g.getSpawnPosition = ⟨0, 50, 0⟩) ∧
    ∀ isl rest, g.islands = isl :: rest →
      g.getSpawnPosition.x = isl.x ∧ g.getSpawnPosition.z = isl.z ∧
      g.getSpawnPosition.y = max (g.getHeightAt isl.x isl.z + 5) 10 ∧
      g.getHeightAt isl.x isl.z + 5 ≤ g.getSpawnPosition.y ∧
      (10 : ℚ) ≤ g.getSpawnPosition.y ∧
      (g.config.waterHeight ≤ 0 →
        g.config.waterHeight + 10 ≤ g.getSpawnPosition.y) := by
  constructor
  · intro h
    unfold WorldGenerator.getSpawnPosition
    rw [h]
  · intro isl rest h
    unfold WorldGenerator.getSpawnPosition
    rw [h]
    refine ⟨rfl, rfl, rfl, le_max_left _ _, le_max_right _ _, fun hw => ?_⟩
    have := le_max_right (g.getHeightAt isl.x isl.z + 5) (10 : ℚ)
    linarith

/-- Witness for the amended C8: a one-island generator state. -/
theorem spawn_position_amended_witness :
    (WorldGenerator.mk DEFAULT_CONFIG ⟨.nan, 0, []⟩
        [⟨2, 3, 4, 1, 0, 0, 1, .sandy⟩]).islands =
      (⟨2, 3, 4, 1, 0, 0, 1, .sandy⟩ : Island) :: [] ∧
    ((WorldGenerator.mk DEFAULT_CONFIG ⟨.nan, 0, []⟩
        [⟨2, 3, 4, 1, 0, 0, 1, .sandy⟩]).getSpawnPosition.x =
      (⟨2, 3, 4, 1, 0, 0, 1, .sandy⟩ : Island).x ∧
    (WorldGenerator.mk DEFAULT_CONFIG ⟨.nan, 0, []⟩
        [⟨2, 3, 4, 1, 0, 0, 1, .sandy⟩]).getSpawnPosition.z =
      (⟨2, 3, 4, 1, 0, 0, 1, .sandy⟩ : Island).z ∧
    (WorldGenerator.mk DEFAULT_CONFIG ⟨.nan, 0, []⟩
        [⟨2, 3, 4, 1, 0, 0, 1, .sandy⟩]).getSpawnPosition.y =
      max ((WorldGenerator.mk DEFAULT_CONFIG ⟨.nan, 0, []⟩
        [⟨2, 3, 4, 1, 0, 0, 1, .sandy⟩]).getHeightAt
          (⟨2, 3, 4, 1, 0, 0, 1, .sandy⟩ : Island).x
          (⟨2, 3, 4, 1, 0, 0, 1, .sandy⟩ : Island).z + 5) 10 ∧
    (WorldGenerator.mk DEFAULT_CONFIG ⟨.nan, 0, []⟩
        [⟨2, 3, 4, 1, 0, 0, 1, .sandy⟩]).getHeightAt
        (⟨2, 3, 4, 1, 0, 0, 1, .sandy⟩ : Island).x
        (⟨2, 3, 4, 1, 0, 0, 1, .sandy⟩ : Island).z + 5 ≤
      (WorldGenerator.mk DEFAULT_CONFIG ⟨.nan, 0, []⟩
        [⟨2, 3, 4, 1, 0, 0, 1, .sandy⟩]).getSpawnPosition.y ∧
    (10 : ℚ) ≤ (WorldGenerator.mk DEFAULT_CONFIG ⟨.nan, 0, []⟩
        [⟨2, 3, 4, 1, 0, 0, 1, .sandy⟩]).getSpawnPosition.y ∧
    ((WorldGenerator.mk DEFAULT_CONFIG ⟨.nan, 0, []⟩
        [⟨2, 3, 4, 1, 0, 0, 1, .sandy⟩]).config.waterHeight ≤ 0 →
      (WorldGenerator.mk DEFAULT_CONFIG ⟨.nan, 0, []⟩
        [⟨2, 3, 4, 1, 0, 0, 1, .sandy⟩]).config.waterHeight + 10 ≤
        (WorldGenerator.mk DEFAULT_CONFIG ⟨.nan, 0, []⟩
        [⟨2, 3, 4, 1, 0, 0, 1, .sandy⟩]).getSpawnPosition.y)) :=
  ⟨rfl, (spawn_position_amended _).2 _ _ rfl⟩

/-! ## C10 — height is independent of edgeFalloff -/

/-- The closest-island tracking never changes the blend accumulator. -/
theorem updateClosest_highestBlend (acc : HBlend) (isl : Island) (d : ℚ) :
    (updateClosest acc isl d).highestBlend = acc.highestBlend := by
  unfold updateClosest
  cases hcd : acc.closestDist
  · rfl
  · dsimp only
    split <;> rfl

/-- The closest-island tracking never changes the blended height. -/
theorem updateClosest_blended (acc : HBlend) (isl : Island) (d : ℚ) :
    (updateClosest acc isl d).blended = acc.blended := by
  unfold updateClosest
  cases hcd : acc.closestDist
  · rfl
  · dsimp only
    split <;> rfl

/-- One `getHeightAt` loop iteration reads every island field except
`edgeFalloff` (and except the dead closest-island tracking): islands that
agree on the other fields produce the same blend and blended height. -/
theorem heightStep_agree (cfg : WorldConfig) (perm : List ℕ) (x z : ℚ)
    {a b : Island} (hab : AgreeExceptEdgeFalloff a b) {acc1 acc2 : HBlend}
    (h1 : acc1.highestBlend = acc2.highestBlend)
    (h2 : acc1.blended = acc2.blended) :
    (heightStep cfg perm x z acc1 a).highestBlend =
      (heightStep cfg perm x z acc2 b).highestBlend ∧
    (heightStep cfg perm x z acc1 a).blended =
      (heightStep cfg perm x z acc2 b).blended := by
  obtain ⟨hx, hz, hr, hh, hnx, hnz, ht⟩ := hab
  constructor <;>
    simp only [heightStep, hx, hz, hr, hh, hnx, hnz,
      apply_ite HBlend.highestBlend, apply_ite HBlend.blended,
      updateClosest_highestBlend, updateClosest_blended, h1, h2]

/-- The `getHeightAt` island fold preserves the agreement. -/
theorem foldl_heightStep_agree (cfg : WorldConfig) (perm : List ℕ) (x z : ℚ)
    {l1 l2 : List Island} (hf : List.Forall₂ AgreeExceptEdgeFalloff l1 l2) :
    ∀ {acc1 acc2 : HBlend}, acc1.highestBlend = acc2.highestBlend →
      acc1.blended = acc2.blended →
      (l1.foldl (heightStep cfg perm x z) acc1).highestBlend =
        (l2.foldl (heightStep cfg perm x z) acc2).highestBlend ∧
      (l1.foldl (heightStep cfg perm x z) acc1).blended =
        (l2.foldl (heightStep cfg perm x z) acc2).blended := by
  induction hf with
  | nil => intro acc1 acc2 h1 h2; exact ⟨h1, h2⟩
  | cons hab _ ih =>
    intro acc1 acc2 h1 h2
    obtain ⟨k1, k2⟩ := heightStep_agree cfg perm x z hab h1 h2
    exact ih k1 k2

/-- C10: height is independent of `edgeFalloff`.  Two generator states with
the same config and permutation table whose island lists agree on every field
except possibly `edgeFalloff` produce identical `getHeightAt` values
everywhere: the stored `edgeFalloff` is never read during height
synthesis. -/
theorem height_independent_of_edgeFalloff (g1 g2 : WorldGenerator)
    (hc : g1.config = g2.config) (hp : g1.noise.perm = g2.noise.perm)
    (hisl : List.Forall₂ AgreeExceptEdgeFalloff g1.islands g2.islands)
    (x z : ℚ) : g1.getHeightAt x z = g2.getHeightAt x z := by
  simp only [WorldGenerator.getHeightAt]
  rw [hc, hp]
  obtain ⟨k1, k2⟩ := @foldl_heightStep_agree g2.config g2.noise.perm x z
    g1.islands g2.islands hisl ⟨0, g2.config.oceanDepth, none, none⟩
    ⟨0, g2.config.oceanDepth, none, none⟩ rfl rfl
  rw [k1, k2]

/-- Witness for C10: two one-island states differing only in
`edgeFalloff`. -/
theorem height_independent_of_edgeFalloff_witness :
    (WorldGenerator.mk DEFAULT_CONFIG ⟨.nan, 0, []⟩
        [⟨1, 2, 3, 1, 0, 0, 1/2, .rocky⟩]).config =
      (WorldGenerator.mk DEFAULT_CONFIG ⟨.nan, 0, []⟩
        [⟨1, 2, 3, 1, 0, 0, 9/10, .rocky⟩]).config ∧
    (WorldGenerator.mk DEFAULT_CONFIG ⟨.nan, 0, []⟩
        [⟨1, 2, 3, 1, 0, 0, 1/2, .rocky⟩]).noise.perm =
      (WorldGenerator.mk DEFAULT_CONFIG ⟨.nan, 0, []⟩
        [⟨1, 2, 3, 1, 0, 0, 9/10, .rocky⟩]).noise.perm ∧
    List.Forall₂ AgreeExceptEdgeFalloff
      (WorldGenerator.mk DEFAULT_CONFIG ⟨.nan, 0, []⟩
        [⟨1, 2, 3, 1, 0, 0, 1/2, .rocky⟩]).islands
      (WorldGenerator.mk DEFAULT_CONFIG ⟨.nan, 0, []⟩
        [⟨1, 2, 3, 1, 0, 0, 9/10, .rocky⟩]).islands ∧
    (WorldGenerator.mk DEFAULT_CONFIG ⟨.nan, 0, []⟩
        [⟨1, 2, 3, 1, 0, 0, 1/2, .rocky⟩]).getHeightAt 3 4 =
      (WorldGenerator.mk DEFAULT_CONFIG ⟨.nan, 0, []⟩
        [⟨1, 2, 3, 1, 0, 0, 9/10, .rocky⟩]).getHeightAt 3 4 :=
  ⟨rfl, rfl, .cons ⟨rfl, rfl, rfl, rfl, rfl, rfl, rfl⟩ .nil,
    height_independent_of_edgeFalloff
      (WorldGenerator.mk DEFAULT_CONFIG ⟨.nan, 0, []⟩
        [⟨1, 2, 3, 1, 0, 0, 1/2, .rocky⟩])
      (WorldGenerator.mk DEFAULT_CONFIG ⟨.nan, 0, []⟩
        [⟨1, 2, 3, 1, 0, 0, 9/10, .rocky⟩]) rfl rfl
      (.cons ⟨rfl, rfl, rfl, rfl, rfl, rfl, rfl⟩ .nil) 3 4⟩

/-! ## C2 — Poisson-disk minimum spacing: geometry and grid lemmas -/

/-- Floors of reals less than 2 apart differ by at most 2. -/
theorem floor_diff_le {A B : ℚ} (h1 : A - B < 2) (h2 : B - A < 2) :
    -2 ≤ ⌊A⌋ - ⌊B⌋ ∧ ⌊A⌋ - ⌊B⌋ ≤ 2 := by
  have fA1 := Int.floor_le A
  have fA2 := Int.lt_floor_add_one A
  have fB1 := Int.floor_le B
  have fB2 := Int.lt_floor_add_one B
  constructor
  · have hq : ((⌊B⌋ : ℚ)) - ((⌊A⌋ : ℚ)) < 3 := by linarith
    have hz : (⌊B⌋ : ℤ) - ⌊A⌋ < 3 := by exact_mod_cast hq
    omega
  · have hq : ((⌊A⌋ : ℚ)) - ((⌊B⌋ : ℚ)) < 3 := by linarith
    have hz : (⌊A⌋ : ℤ) - ⌊B⌋ < 3 := by exact_mod_cast hq
    omega

/-- Two points in the same (half-open) grid cell are strictly closer than one
cell size apart along that axis. -/
theorem cellC_eq_close {h c x y : ℚ} (hc : 0 < c)
    (he : cellC h c x = cellC h c y) : |x - y| < c := by
  unfold cellC at he
  have a1 : (⌊(x + h) / c⌋ : ℚ) * c ≤ x + h :=
    (le_div_iff₀ hc).mp (Int.floor_le _)
  have a2 : x + h < ((⌊(x + h) / c⌋ : ℚ) + 1) * c :=
    (div_lt_iff₀ hc).mp (Int.lt_floor_add_one _)
  have b1 : (⌊(y + h) / c⌋ : ℚ) * c ≤ y + h :=
    (le_div_iff₀ hc).mp (Int.floor_le _)
  have b2 : y + h < ((⌊(y + h) / c⌋ : ℚ) + 1) * c :=
    (div_lt_iff₀ hc).mp (Int.lt_floor_add_one _)
  have hcast : ((⌊(x + h) / c⌋ : ℤ) : ℚ) = ((⌊(y + h) / c⌋ : ℤ) : ℚ) := by
    exact_mod_cast he
  rw [hcast] at a1 a2
  rw [abs_lt]
  constructor <;> nlinarith

/-- Points less than two cell sizes apart sit at most two grid cells apart. -/
theorem cellC_near {h c x y : ℚ} (hc : 0 < c) (hxy : |x - y| < 2 * c) :
    -2 ≤ cellC h c x - cellC h c y ∧ cellC h c x - cellC h c y ≤ 2 := by
  obtain ⟨hl, hr⟩ := abs_lt.mp hxy
  unfold cellC
  refine floor_diff_le ?_ ?_
  · rw [div_sub_div_same, div_lt_iff₀ hc]
    linarith
  · rw [div_sub_div_same, div_lt_iff₀ hc]
    linarith

/-- Row-major flat cell indices are injective on valid cells. -/
theorem cellIdx_inj {W : ℕ} {gx1 gz1 gx2 gz2 : ℤ}
    (h1 : 0 ≤ gx1) (h2 : gx1 < (W : ℤ)) (h3 : 0 ≤ gx2) (h4 : gx2 < (W : ℤ))
    (he : gz1 * (W : ℤ) + gx1 = gz2 * (W : ℤ) + gx2) :
    gx1 = gx2 ∧ gz1 = gz2 := by
  have hd : (gz1 - gz2) * (W : ℤ) = gx2 - gx1 := by linear_combination he
  rcases lt_trichotomy gz1 gz2 with hlt | heq | hgt
  · exfalso
    have hstep : (gz1 - gz2) * (W : ℤ) ≤ -1 * W :=
      mul_le_mul_of_nonneg_right (by omega) (by omega)
    rw [hd] at hstep
    omega
  · refine ⟨?_, heq⟩
    rw [heq] at hd
    simp at hd
    omega
  · exfalso
    have hstep : 1 * (W : ℤ) ≤ (gz1 - gz2) * W :=
      mul_le_mul_of_nonneg_right (by omega) (by omega)
    rw [hd] at hstep
    omega

/-- A valid cell's flat index lies in `[0, W²)`. -/
theorem cellIdx_bounds {W : ℕ} {gx gz : ℤ}
    (h1 : 0 ≤ gx) (h2 : gx < (W : ℤ)) (h3 : 0 ≤ gz) (h4 : gz < (W : ℤ)) :
    0 ≤ gz * (W : ℤ) + gx ∧ gz * (W : ℤ) + gx < (W : ℤ) * W := by
  constructor
  · have : 0 ≤ gz * (W : ℤ) := mul_nonneg h3 (by omega)
    omega
  · have hstep : gz * (W : ℤ) ≤ ((W : ℤ) - 1) * W :=
      mul_le_mul_of_nonneg_right (by omega) (by omega)
    have hexp : ((W : ℤ) - 1) * W = (W : ℤ) * W - W := by ring
    linarith

/-- `getD` after `set` at the written index. -/
theorem getD_set_self {l : List ℤ} {k : ℕ} (hk : k < l.length) (v d : ℤ) :
    (l.set k v).getD k d = v := by
  rw [List.getD_eq_getElem?_getD, List.getElem?_set]
  simp [hk]

/-- `getD` after `set` at another index. -/
theorem getD_set_other {l : List ℤ} {k m : ℕ} (hk : k ≠ m) (v d : ℤ) :
    (l.set k v).getD m d = l.getD m d := by
  rw [List.getD_eq_getElem?_getD, List.getElem?_set, if_neg hk,
    ← List.getD_eq_getElem?_getD]

/-- `getD` on a `replicate` list. -/
theorem getD_replicate_self {n k : ℕ} {v : ℤ} :
    (List.replicate n v).getD k v = v := by
  rw [List.getD_eq_getElem?_getD, List.getElem?_replicate]
  split <;> rfl

/-- Extracting the cell bounds and the flat-index formula from a nonnegative
`gridIndex` result. -/
theorem gridIndexQ_spec {h c : ℚ} {W : ℕ} {x z : ℚ}
    (hn : 0 ≤ gridIndexQ h c W x z) :
    0 ≤ cellC h c x ∧ cellC h c x < (W : ℤ) ∧
    0 ≤ cellC h c z ∧ cellC h c z < (W : ℤ) ∧
    gridIndexQ h c W x z = cellC h c z * (W : ℤ) + cellC h c x := by
  unfold gridIndexQ at hn ⊢
  by_cases hbad : cellC h c x < 0 ∨ (W : ℤ) ≤ cellC h c x ∨
      cellC h c z < 0 ∨ (W : ℤ) ≤ cellC h c z
  · rw [if_pos hbad] at hn
    omega
  · push_neg at hbad
    rw [if_neg (by push_neg; exact hbad)] at hn ⊢
    exact ⟨by omega, by omega, by omega, by omega, rfl⟩

/-- The `gridIndex` formula on in-bounds cells. -/
theorem gridIndexQ_of_bounds {h c : ℚ} {W : ℕ} {x z : ℚ}
    (h1 : 0 ≤ cellC h c x) (h2 : cellC h c x < (W : ℤ))
    (h3 : 0 ≤ cellC h c z) (h4 : cellC h c z < (W : ℤ)) :
    gridIndexQ h c W x z = cellC h c z * (W : ℤ) + cellC h c x := by
  unfold gridIndexQ
  rw [if_neg (by push_neg; exact ⟨h1, h2, h3, h4⟩)]

/-- Invariance of the Poisson-disk invariant under noise and active-list
changes (the invariant constrains only `points` and `grid`). -/
theorem PDInv_of_fields {ps : PDParams} {st st' : PDState}
    (hp : st'.points = st.points) (hg : st'.grid = st.grid)
    (inv : PDInv ps st) : PDInv ps st' := by
  constructor
  · rw [hg]; exact inv.gl
  · intro i hi
    rw [hp] at hi
    rw [hp]
    exact inv.cellB i hi
  · intro i hi
    rw [hp] at hi
    rw [hp, hg]
    exact inv.reg i hi
  · rw [hp]
    exact inv.far

/-- Every offset pair with both components in `[-2, 2]` occurs in the 5×5
scan window. -/
theorem mem_neighborOffsets {dz dx : ℤ} (h1 : -2 ≤ dz) (h2 : dz ≤ 2)
    (h3 : -2 ≤ dx) (h4 : dx ≤ 2) : (dz, dx) ∈ neighborOffsets := by
  unfold neighborOffsets
  interval_cases dz <;> interval_cases dx <;> simp

/-- If some scanned neighbor cell holds a registered point strictly within
`radius` of the candidate, the scan reports `true`. -/
theorem tooCloseCheck_true_of {r : ℚ} {grid : List ℤ} {points : List (ℚ × ℚ)}
    {W : ℕ} {gx gz : ℤ} {nx nz : ℚ} {dz dx : ℤ} {i : ℕ}
    (ho : (dz, dx) ∈ neighborOffsets)
    (h0 : 0 ≤ (gz + dz) * (W : ℤ) + (gx + dx))
    (h1 : (gz + dz) * (W : ℤ) + (gx + dx) < (grid.length : ℤ))
    (hreg : grid.getD ((gz + dz) * (W : ℤ) + (gx + dx)).toNat (-1) = (i : ℤ))
    (hclose : (nx - (points.getD i (0, 0)).1) * (nx - (points.getD i (0, 0)).1) +
      (nz - (points.getD i (0, 0)).2) * (nz - (points.getD i (0, 0)).2) < r * r) :
    tooCloseCheck r grid points W gx gz nx nz = true := by
  unfold tooCloseCheck
  rw [List.any_eq_true]
  refine ⟨(dz, dx), ho, ?_⟩
  dsimp only
  rw [if_neg (by push_neg; exact ⟨h0, h1⟩)]
  rw [hreg]
  rw [if_neg (by omega)]
  simp only [Int.toNat_natCast, decide_eq_true_eq]
  exact hclose

/-- Scan completeness: when the invariant holds and the 5×5 scan around the
candidate cell reports `false`, the candidate is at least `radius` away from
every stored point. -/
theorem scan_complete {ps : PDParams} {st : PDState} {nx nz : ℚ}
    (inv : PDInv ps st) (hc : 0 < ps.cellSize) (hr : 0 ≤ ps.radius)
    (hrc : ps.radius ≤ 2 * ps.cellSize)
    (hscan : tooCloseCheck ps.radius st.grid st.points ps.gridW
      (cellC ps.halfSize ps.cellSize nx) (cellC ps.halfSize ps.cellSize nz)
      nx nz = false) :
    ∀ i, i < st.points.length →
      FarPoints ps.radius (st.points.getD i (0, 0)) (nx, nz) := by
  intro i hi
  by_contra hfar
  unfold FarPoints at hfar
  push_neg at hfar
  set p := st.points.getD i (0, 0) with hp
  have hfar2 : (p.1 - nx) ^ 2 + (p.2 - nz) ^ 2 < ps.radius ^ 2 := hfar
  have hx2 : (p.1 - nx) ^ 2 < ps.radius ^ 2 := by nlinarith [sq_nonneg (p.2 - nz)]
  have hz2 : (p.2 - nz) ^ 2 < ps.radius ^ 2 := by nlinarith [sq_nonneg (p.1 - nx)]
  have hxa : |p.1 - nx| < 2 * ps.cellSize :=
    lt_of_lt_of_le (abs_lt_of_sq_lt_sq hx2 hr) hrc
  have hza : |p.2 - nz| < 2 * ps.cellSize :=
    lt_of_lt_of_le (abs_lt_of_sq_lt_sq hz2 hr) hrc
  obtain ⟨hdx1, hdx2⟩ := @cellC_near ps.halfSize ps.cellSize p.1 nx hc hxa
  obtain ⟨hdz1, hdz2⟩ := @cellC_near ps.halfSize ps.cellSize p.2 nz hc hza
  obtain ⟨hb1, hb2, hb3, hb4⟩ := inv.cellB i hi
  obtain ⟨hk0, hk1⟩ := cellIdx_bounds hb1 hb2 hb3 hb4
  have he : (cellC ps.halfSize ps.cellSize nz +
        (cellC ps.halfSize ps.cellSize p.2 - cellC ps.halfSize ps.cellSize nz)) *
        (ps.gridW : ℤ) +
      (cellC ps.halfSize ps.cellSize nx +
        (cellC ps.halfSize ps.cellSize p.1 - cellC ps.halfSize ps.cellSize nx)) =
      cellC ps.halfSize ps.cellSize p.2 * (ps.gridW : ℤ) +
        cellC ps.halfSize ps.cellSize p.1 := by ring
  have hlen : ((st.grid.length : ℤ)) = (ps.gridW : ℤ) * ps.gridW := by
    rw [inv.gl]; push_cast; ring
  have htrue : tooCloseCheck ps.radius st.grid st.points ps.gridW
      (cellC ps.halfSize ps.cellSize nx) (cellC ps.halfSize ps.cellSize nz)
      nx nz = true := tooCloseCheck_true_of
    (mem_neighborOffsets hdz1 hdz2 hdx1 hdx2)
    (by rw [he]; exact hk0)
    (by rw [he, hlen]; exact hk1)
    (by rw [he]; exact inv.reg i hi)
    (by rw [← hp]; nlinarith [hfar2])
  rw [hscan] at htrue
  exact Bool.false_ne_true htrue

/-- Accepting a candidate (appending the point, registering its cell in the
grid, pushing it on the active list) preserves the Poisson-disk invariant. -/
theorem accept_inv {ps : PDParams} {st : PDState} {nx nz : ℚ}
    {n' : SeededNoise} {act' : List ℕ}
    (hc : 0 < ps.cellSize) (hr : 0 ≤ ps.radius)
    (hrc : ps.radius ≤ 2 * ps.cellSize)
    (h2c : 2 * ps.cellSize ^ 2 ≤ ps.radius ^ 2)
    (inv : PDInv ps st)
    (hn : 0 ≤ gridIndexQ ps.halfSize ps.cellSize ps.gridW nx nz)
    (hscan : tooCloseCheck ps.radius st.grid st.points ps.gridW
      (cellC ps.halfSize ps.cellSize nx) (cellC ps.halfSize ps.cellSize nz)
      nx nz = false) :
    PDInv ps ⟨st.points ++ [(nx, nz)],
      st.grid.set (gridIndexQ ps.halfSize ps.cellSize ps.gridW nx nz).toNat
        (st.points.length : ℤ), act', n'⟩ := by
  obtain ⟨hx1, hx2, hz1, hz2, hfe⟩ := gridIndexQ_spec hn
  have hfar := scan_complete inv hc hr hrc hscan
  obtain ⟨hk0, hk1⟩ := cellIdx_bounds hx1 hx2 hz1 hz2
  set gi := gridIndexQ ps.halfSize ps.cellSize ps.gridW nx nz with hgi
  have hlt : gi.toNat < st.grid.length := by
    rw [inv.gl]
    have h1 : ((ps.gridW * ps.gridW : ℕ) : ℤ) = (ps.gridW : ℤ) * ps.gridW := by
      push_cast; ring
    omega
  refine ⟨?_, ?_, ?_, ?_⟩
  · dsimp only
    rw [List.length_set]
    exact inv.gl
  · intro i hi
    dsimp only at hi ⊢
    simp only [List.length_append, List.length_singleton] at hi
    rcases lt_or_eq_of_le (Nat.lt_succ_iff.mp hi) with hlt' | heq
    · rw [List.getD_append _ _ _ _ hlt']
      exact inv.cellB i hlt'
    · subst heq
      rw [List.getD_append_right _ _ _ _ (le_refl _), Nat.sub_self]
      exact ⟨hx1, hx2, hz1, hz2⟩
  · intro i hi
    dsimp only at hi ⊢
    simp only [List.length_append, List.length_singleton] at hi
    rcases lt_or_eq_of_le (Nat.lt_succ_iff.mp hi) with hlt' | heq
    · rw [List.getD_append _ _ _ _ hlt']
      set pi := st.points.getD i (0, 0) with hpi
      by_cases hsame :
          (cellC ps.halfSize ps.cellSize pi.2 * (ps.gridW : ℤ) +
            cellC ps.halfSize ps.cellSize pi.1).toNat = gi.toNat
      · exfalso
        obtain ⟨pb1, pb2, pb3, pb4⟩ := inv.cellB i hlt'
        obtain ⟨pk0, pk1⟩ := cellIdx_bounds pb1 pb2 pb3 pb4
        have hEq : cellC ps.halfSize ps.cellSize pi.2 * (ps.gridW : ℤ) +
            cellC ps.halfSize ps.cellSize pi.1 = gi := by
          rw [← Int.toNat_of_nonneg pk0, ← Int.toNat_of_nonneg hn, hsame]
        obtain ⟨hpx, hpz⟩ := cellIdx_inj pb1 pb2 hx1 hx2 (hEq.trans hfe)
        have c1 : |pi.1 - nx| < ps.cellSize := cellC_eq_close hc hpx
        have c2 : |pi.2 - nz| < ps.cellSize := cellC_eq_close hc hpz
        have hfa2 : ps.radius ^ 2 ≤ (pi.1 - nx) ^ 2 + (pi.2 - nz) ^ 2 :=
          hfar i hlt'
        obtain ⟨c1a, c1b⟩ := abs_lt.mp c1
        obtain ⟨c2a, c2b⟩ := abs_lt.mp c2
        have s1 : (pi.1 - nx) ^ 2 < ps.cellSize ^ 2 := sq_lt_sq' c1a c1b
        have s2 : (pi.2 - nz) ^ 2 < ps.cellSize ^ 2 := sq_lt_sq' c2a c2b
        linarith
      · rw [getD_set_other (fun h => hsame h.symm)]
        exact inv.reg i hlt'
    · subst heq
      rw [List.getD_append_right _ _ _ _ (le_refl _), Nat.sub_self]
      have hq : (([(nx, nz)] : List (ℚ × ℚ)).getD 0 (0, 0)) = (nx, nz) := rfl
      rw [hq]
      rw [← hfe]
      exact getD_set_self hlt (st.points.length : ℤ) (-1)
  · dsimp only
    rw [List.pairwise_append]
    refine ⟨inv.far, by simp, ?_⟩
    intro a ha b hb
    rw [List.mem_singleton] at hb
    subst hb
    obtain ⟨j, hj, hja⟩ := List.mem_iff_getElem.mp ha
    have hfj := hfar j hj
    rw [List.getD_eq_getElem?_getD, List.getElem?_eq_getElem hj] at hfj
    simp only [Option.getD_some] at hfj
    rw [hja] at hfj
    exact hfj

/-- The candidate check preserves the Poisson-disk invariant. -/
theorem pdTryCand_inv {ps : PDParams} {nx nz : ℚ} {n1 : SeededNoise}
    {st : PDState}
    (hc : 0 < ps.cellSize) (hr : 0 ≤ ps.radius)
    (hrc : ps.radius ≤ 2 * ps.cellSize)
    (h2c : 2 * ps.cellSize ^ 2 ≤ ps.radius ^ 2)
    (inv : PDInv ps st) : PDInv ps (pdTryCand ps nx nz n1 st).1 := by
  unfold pdTryCand
  dsimp only
  split
  · refine PDInv_of_fields ?_ ?_ inv <;> rfl
  · split
    · refine PDInv_of_fields ?_ ?_ inv <;> rfl
    · split
      · refine PDInv_of_fields ?_ ?_ inv <;> rfl
      · rename_i hb hn hscan
        simp only [Bool.not_eq_true] at hscan
        exact accept_inv hc hr hrc h2c inv (Int.not_lt.mp hn) hscan

/-- One candidate attempt preserves the Poisson-disk invariant. -/
theorem pdTryOne_inv {ps : PDParams} {point : ℚ × ℚ} {st : PDState}
    (hc : 0 < ps.cellSize) (hr : 0 ≤ ps.radius)
    (hrc : ps.radius ≤ 2 * ps.cellSize)
    (h2c : 2 * ps.cellSize ^ 2 ≤ ps.radius ^ 2)
    (inv : PDInv ps st) : PDInv ps (pdTryOne ps point st).1 :=
  pdTryCand_inv hc hr hrc h2c inv

/-- Erasing an active-list entry preserves the Poisson-disk invariant. -/
theorem PDInv_eraseIdx {ps : PDParams} {st : PDState} (k : ℕ)
    (inv : PDInv ps st) :
    PDInv ps { st with active := st.active.eraseIdx k } := by
  refine PDInv_of_fields ?_ ?_ inv <;> rfl

/-- One-step unfolding of the attempts loop. -/
theorem pdAttempts_succ (ps : PDParams) (point : ℚ × ℚ) (k : ℕ)
    (st : PDState) :
    pdAttempts ps point (k + 1) st =
      if (pdTryOne ps point st).2 then pdTryOne ps point st
      else pdAttempts ps point k (pdTryOne ps point st).1 := rfl

/-- The attempts loop preserves the Poisson-disk invariant. -/
theorem pdAttempts_inv {ps : PDParams} (point : ℚ × ℚ) (k : ℕ)
    (hc : 0 < ps.cellSize) (hr : 0 ≤ ps.radius)
    (hrc : ps.radius ≤ 2 * ps.cellSize)
    (h2c : 2 * ps.cellSize ^ 2 ≤ ps.radius ^ 2) :
    ∀ {st : PDState}, PDInv ps st → PDInv ps (pdAttempts ps point k st).1 := by
  induction k with
  | zero => intro st inv; exact inv
  | succ n ih =>
    intro st inv
    rw [pdAttempts_succ]
    split
    · exact pdTryOne_inv hc hr hrc h2c inv
    · exact ih (pdTryOne_inv hc hr hrc h2c inv)

/-- One outer-loop iteration preserves the Poisson-disk invariant. -/
theorem pdIter_inv {ps : PDParams} {st : PDState}
    (hc : 0 < ps.cellSize) (hr : 0 ≤ ps.radius)
    (hrc : ps.radius ≤ 2 * ps.cellSize)
    (h2c : 2 * ps.cellSize ^ 2 ≤ ps.radius ^ 2)
    (inv : PDInv ps st) : PDInv ps (pdIter ps st) := by
  unfold pdIter
  dsimp only
  have inv1 : PDInv ps { st with noise := (st.noise.random).2 } := by
    refine PDInv_of_fields ?_ ?_ inv <;> rfl
  split
  · exact pdAttempts_inv _ ps.attempts hc hr hrc h2c inv1
  · exact PDInv_eraseIdx _ (pdAttempts_inv _ ps.attempts hc hr hrc h2c inv1)

/-- One-step unfolding of the fueled outer loop. -/
theorem pdLoop_succ (ps : PDParams) (f : ℕ) (st : PDState) :
    pdLoop ps (f + 1) st =
      if st.active.isEmpty then st else pdLoop ps f (pdIter ps st) := rfl

/-- The fueled outer loop preserves the Poisson-disk invariant. -/
theorem pdLoop_inv {ps : PDParams} (f : ℕ)
    (hc : 0 < ps.cellSize) (hr : 0 ≤ ps.radius)
    (hrc : ps.radius ≤ 2 * ps.cellSize)
    (h2c : 2 * ps.cellSize ^ 2 ≤ ps.radius ^ 2) :
    ∀ {st : PDState}, PDInv ps st → PDInv ps (pdLoop ps f st) := by
  induction f with
  | zero => intro st inv; exact inv
  | succ n ih =>
    intro st inv
    rw [pdLoop_succ]
    split
    · exact inv
    · exact ih (pdIter_inv hc hr hrc h2c inv)

/-- The Poisson-disk initial state (first point, its grid registration, the
singleton active list) satisfies the invariant. -/
theorem init_inv {ps : PDParams} {fx fz : ℚ} {n : SeededNoise}
    (hh : 0 < ps.halfSize) (hc : 0 < ps.cellSize)
    (hW : 2 * ps.halfSize / ps.cellSize ≤ (ps.gridW : ℚ))
    (hfx1 : -ps.halfSize * 0.8 ≤ fx) (hfx2 : fx ≤ ps.halfSize * 0.8)
    (hfz1 : -ps.halfSize * 0.8 ≤ fz) (hfz2 : fz ≤ ps.halfSize * 0.8) :
    PDInv ps ⟨[(fx, fz)],
      (if 0 ≤ gridIndexQ ps.halfSize ps.cellSize ps.gridW fx fz then
        (List.replicate (ps.gridW * ps.gridW) (-1 : ℤ)).set
          (gridIndexQ ps.halfSize ps.cellSize ps.gridW fx fz).toNat 0
      else List.replicate (ps.gridW * ps.gridW) (-1 : ℤ)), [0], n⟩ := by
  have hb : ∀ x : ℚ, -ps.halfSize * 0.8 ≤ x → x ≤ ps.halfSize * 0.8 →
      0 ≤ cellC ps.halfSize ps.cellSize x ∧
      cellC ps.halfSize ps.cellSize x < (ps.gridW : ℤ) := by
    intro x h1 h2
    have h4 : 2 * ps.halfSize ≤ (ps.gridW : ℚ) * ps.cellSize :=
      (div_le_iff₀ hc).mp hW
    constructor
    · exact Int.floor_nonneg.mpr (div_nonneg (by linarith) hc.le)
    · refine Int.floor_lt.mpr ?_
      rw [div_lt_iff₀ hc]
      push_cast
      linarith
  obtain ⟨hx1, hx2⟩ := hb fx hfx1 hfx2
  obtain ⟨hz1, hz2⟩ := hb fz hfz1 hfz2
  have hfe := gridIndexQ_of_bounds hx1 hx2 hz1 hz2
  obtain ⟨hk0, hk1⟩ := cellIdx_bounds hx1 hx2 hz1 hz2
  have hge : 0 ≤ gridIndexQ ps.halfSize ps.cellSize ps.gridW fx fz := by
    rw [hfe]; exact hk0
  rw [if_pos hge]
  have hMc : ((ps.gridW * ps.gridW : ℕ) : ℤ) = (ps.gridW : ℤ) * ps.gridW := by
    push_cast; ring
  have hltM : gridIndexQ ps.halfSize ps.cellSize ps.gridW fx fz <
      ((ps.gridW * ps.gridW : ℕ) : ℤ) := by
    rw [hfe, hMc]; exact hk1
  have hlt : (gridIndexQ ps.halfSize ps.cellSize ps.gridW fx fz).toNat <
      ((List.replicate (ps.gridW * ps.gridW) (-1 : ℤ)).length) := by
    rw [List.length_replicate]
    omega
  refine ⟨?_, ?_, ?_, ?_⟩
  · dsimp only
    rw [List.length_set, List.length_replicate]
  · intro i hi
    dsimp only at hi ⊢
    have hi0 : i = 0 := by simpa [Nat.lt_one_iff] using hi
    subst hi0
    exact ⟨hx1, hx2, hz1, hz2⟩
  · intro i hi
    dsimp only at hi ⊢
    have hi0 : i = 0 := by simpa [Nat.lt_one_iff] using hi
    subst hi0
    have hq : (([(fx, fz)] : List (ℚ × ℚ)).getD 0 (0, 0)) = (fx, fz) := rfl
    rw [hq, ← hfe]
    exact getD_set_self hlt 0 (-1)
  · simp [FarPoints]

/-- All points returned by one `poissonDisk` run are pairwise at least the
sampling radius apart, for any value the float library returns for
`Math.sqrt(2)` that satisfies `0 < sqrt2 ≤ 2 ≤ sqrt2²`. -/
theorem poissonDisk_pairwise (sqrt2 twoPi : ℚ) (cosF sinF : ℚ → ℚ)
    (worldSize : ℚ) (noise : SeededNoise) (radius : ℚ) (attempts : ℕ)
    (hws : 0 < worldSize) (hr : 0 < radius)
    (hs1 : 0 < sqrt2) (hs2 : sqrt2 ≤ 2) (hs3 : 2 ≤ sqrt2 * sqrt2) :
    (poissonDisk sqrt2 twoPi cosF sinF worldSize noise radius
      attempts).1.Pairwise (FarPoints radius) := by
  unfold poissonDisk
  dsimp only
  have hc : (0:ℚ) < radius / sqrt2 := div_pos hr hs1
  have hrc : radius ≤ 2 * (radius / sqrt2) := by
    rw [← mul_div_assoc, le_div_iff₀ hs1]
    nlinarith
  have h2c : 2 * (radius / sqrt2) ^ 2 ≤ radius ^ 2 := by
    rw [div_pow, ← mul_div_assoc, div_le_iff₀ (by positivity)]
    nlinarith [sq_nonneg radius]
  have hh : (0:ℚ) < worldSize / 2 := by linarith
  have hWc : 2 * (worldSize / 2) / (radius / sqrt2) ≤
      (((⌈worldSize / (radius / sqrt2)⌉).toNat : ℕ) : ℚ) := by
    have he : 2 * (worldSize / 2) = worldSize := by ring
    have h2 : (0:ℤ) ≤ ⌈worldSize / (radius / sqrt2)⌉ :=
      Int.ceil_nonneg (le_of_lt (div_pos hws hc))
    have h3 : (((⌈worldSize / (radius / sqrt2)⌉).toNat : ℕ) : ℤ) =
        ⌈worldSize / (radius / sqrt2)⌉ := Int.toNat_of_nonneg h2
    have h4 : (((⌈worldSize / (radius / sqrt2)⌉).toNat : ℕ) : ℚ) =
        ((⌈worldSize / (radius / sqrt2)⌉ : ℤ) : ℚ) := by exact_mod_cast h3
    rw [he, h4]
    exact Int.le_ceil _
  have hlohi : -(worldSize / 2) * 0.8 ≤ (worldSize / 2) * 0.8 := by linarith
  obtain ⟨ha1, ha2⟩ := randomRange_mem noise (-(worldSize / 2) * 0.8)
    ((worldSize / 2) * 0.8) hlohi
  obtain ⟨hb1, hb2⟩ := randomRange_mem
    (noise.randomRange (-(worldSize / 2) * 0.8) ((worldSize / 2) * 0.8)).2
    (-(worldSize / 2) * 0.8) ((worldSize / 2) * 0.8) hlohi
  have inv0 := @init_inv ⟨radius, worldSize / 2, radius / sqrt2,
      (⌈worldSize / (radius / sqrt2)⌉).toNat, attempts, twoPi, cosF, sinF⟩
    (noise.randomRange (-(worldSize / 2) * 0.8) ((worldSize / 2) * 0.8)).1
    ((noise.randomRange (-(worldSize / 2) * 0.8) ((worldSize / 2) * 0.8)).2.randomRange
      (-(worldSize / 2) * 0.8) ((worldSize / 2) * 0.8)).1
    ((noise.randomRange (-(worldSize / 2) * 0.8) ((worldSize / 2) * 0.8)).2.randomRange
      (-(worldSize / 2) * 0.8) ((worldSize / 2) * 0.8)).2
    hh hc hWc ha1 ha2 hb1 hb2
  exact (@pdLoop_inv ⟨radius, worldSize / 2, radius / sqrt2,
      (⌈worldSize / (radius / sqrt2)⌉).toNat, attempts, twoPi, cosF, sinF⟩
    _ hc hr.le hrc h2c _ inv0).far

/-- One-step unfolding of the island-building loop. -/
theorem buildIslandsAux_cons (cfg : WorldConfig) (h : ℚ) (p : ℚ × ℚ)
    (l : List (ℚ × ℚ)) (n : SeededNoise) :
    buildIslandsAux cfg h (p :: l) n =
      ((islandStep cfg h p n).1 ::
        (buildIslandsAux cfg h l (islandStep cfg h p n).2).1,
       (buildIslandsAux cfg h l (islandStep cfg h p n).2).2) := rfl

/-- The island-building loop produces one island per candidate and keeps
each candidate's planar position. -/
theorem buildIslandsAux_spec (cfg : WorldConfig) (h : ℚ)
    (l : List (ℚ × ℚ)) :
    ∀ n : SeededNoise,
      (buildIslandsAux cfg h l n).1.length = l.length ∧
      ∀ i, i < l.length →
        ((buildIslandsAux cfg h l n).1.getD i default).x =
          (l.getD i (0, 0)).1 ∧
        ((buildIslandsAux cfg h l n).1.getD i default).z =
          (l.getD i (0, 0)).2 := by
  induction l with
  | nil =>
    intro n
    exact ⟨rfl, fun i hi => absurd hi (by simp)⟩
  | cons p t ih =>
    intro n
    rw [buildIslandsAux_cons]
    dsimp only
    constructor
    · rw [List.length_cons, (ih _).1, List.length_cons]
    · intro i hi
      cases i with
      | zero =>
        rw [List.getD_cons_zero, List.getD_cons_zero]
        exact ⟨rfl, rfl⟩
      | succ j =>
        have hj : j < t.length := by
          rw [List.length_cons] at hi; omega
        rw [List.getD_cons_succ, List.getD_cons_succ]
        exact (ih (islandStep cfg h p n).2).2 j hj

/-- Indexed form of a pairwise minimum-spacing fact, valid for either order
of the two indices. -/
theorem pairwise_far_getD {r : ℚ} {l : List (ℚ × ℚ)}
    (hp : l.Pairwise (FarPoints r))
    {i j : ℕ} (hi : i < l.length) (hj : j < l.length) (hij : i ≠ j) :
    r ^ 2 ≤ ((l.getD i (0, 0)).1 - (l.getD j (0, 0)).1) ^ 2 +
      ((l.getD i (0, 0)).2 - (l.getD j (0, 0)).2) ^ 2 := by
  have hget : ∀ a b, ∀ ha : a < l.length, ∀ hb : b < l.length, a < b →
      FarPoints r (l.getD a (0, 0)) (l.getD b (0, 0)) := by
    intro a b ha hb hab
    have hR := List.pairwise_iff_getElem.mp hp a b ha hb hab
    rw [List.getD_eq_getElem?_getD, List.getElem?_eq_getElem ha,
      List.getD_eq_getElem?_getD, List.getElem?_eq_getElem hb]
    simpa using hR
  rcases Nat.lt_or_ge i j with hlt | hge
  · exact hget i j hi hj hlt
  · have hlt : j < i := by omega
    have hs : r ^ 2 ≤ ((l.getD j (0, 0)).1 - (l.getD i (0, 0)).1) ^ 2 +
        ((l.getD j (0, 0)).2 - (l.getD i (0, 0)).2) ^ 2 :=
      hget j i hj hi hlt
    nlinarith [hs]

/-- Minimum spacing for `placeIslands` in the Poisson-disk branch
(`islandCount ≥ 2`): any two distinct islands sit at least
`(minIslandSize + maxIslandSize)/2 · 2.5` apart (squared form). -/
theorem placeIslands_spacing (sqrt2 twoPi : ℚ) (cosF sinF : ℚ → ℚ)
    (cfg : WorldConfig) (noise : SeededNoise)
    (h2 : 2 ≤ cfg.islandCount) (hws : 0 < cfg.worldSize)
    (hmm : 0 < cfg.minIslandSize + cfg.maxIslandSize)
    (hs1 : 0 < sqrt2) (hs2 : sqrt2 ≤ 2) (hs3 : 2 ≤ sqrt2 * sqrt2) :
    ∀ i j, i < (placeIslands sqrt2 twoPi cosF sinF cfg noise).1.length →
      j < (placeIslands sqrt2 twoPi cosF sinF cfg noise).1.length → i ≠ j →
      ((cfg.minIslandSize + cfg.maxIslandSize) / 2 * 2.5) ^ 2 ≤
        (((placeIslands sqrt2 twoPi cosF sinF cfg noise).1.getD i default).x -
          ((placeIslands sqrt2 twoPi cosF sinF cfg noise).1.getD j
            default).x) ^ 2 +
        (((placeIslands sqrt2 twoPi cosF sinF cfg noise).1.getD i default).z -
          ((placeIslands sqrt2 twoPi cosF sinF cfg noise).1.getD j
            default).z) ^ 2 := by
  intro i j hi hj hne
  unfold placeIslands at hi hj ⊢
  dsimp only at hi hj ⊢
  rw [if_neg (by omega), if_neg (by omega)] at hi hj ⊢
  obtain ⟨hlen, hpos⟩ := buildIslandsAux_spec cfg (cfg.worldSize / 2)
    ((poissonDisk sqrt2 twoPi cosF sinF cfg.worldSize noise
      ((cfg.minIslandSize + cfg.maxIslandSize) / 2 * 2.5) 30).1.take
      (min cfg.islandCount.toNat
        (poissonDisk sqrt2 twoPi cosF sinF cfg.worldSize noise
          ((cfg.minIslandSize + cfg.maxIslandSize) / 2 * 2.5) 30).1.length))
    (poissonDisk sqrt2 twoPi cosF sinF cfg.worldSize noise
      ((cfg.minIslandSize + cfg.maxIslandSize) / 2 * 2.5) 30).2
  rw [hlen] at hi hj
  obtain ⟨hxi, hzi⟩ := hpos i hi
  obtain ⟨hxj, hzj⟩ := hpos j hj
  rw [hxi, hzi, hxj, hzj]
  have hr0 : (0:ℚ) < (cfg.minIslandSize + cfg.maxIslandSize) / 2 * 2.5 := by
    linarith
  exact pairwise_far_getD
    ((poissonDisk_pairwise sqrt2 twoPi cosF sinF cfg.worldSize noise
      ((cfg.minIslandSize + cfg.maxIslandSize) / 2 * 2.5) 30 hws hr0 hs1 hs2
      hs3).sublist (List.take_sublist _ _))
    hi hj hne

/-! ## C2 — minimum island spacing -/

/-- C2: for every configuration with `islandCount ≥ 2` (with a positive world
size and a positive size sum, and for any float-library values of
`Math.sqrt(2)`, `2π`, `cos`, `sin` with `0 < sqrt2 ≤ 2 ≤ sqrt2²`), any two
distinct islands placed by `generate()` are separated by a planar distance of
at least the Poisson-disk spacing `((minIslandSize + maxIslandSize)/2) · 2.5`
(stated in squared form over ℚ). -/
theorem min_island_spacing (sqrt2 twoPi : ℚ) (cosF sinF : ℚ → ℚ)
    (g : WorldGenerator)
    (h2 : 2 ≤ g.config.islandCount)
    (hws : 0 < g.config.worldSize)
    (hmm : 0 < g.config.minIslandSize + g.config.maxIslandSize)
    (hs1 : 0 < sqrt2) (hs2 : sqrt2 ≤ 2) (hs3 : 2 ≤ sqrt2 * sqrt2) :
    ∀ i j,
      i < (g.generate sqrt2 twoPi cosF sinF).islands.length →
      j < (g.generate sqrt2 twoPi cosF sinF).islands.length → i ≠ j →
      ((g.config.minIslandSize + g.config.maxIslandSize) / 2 * 2.5) ^ 2 ≤
        (((g.generate sqrt2 twoPi cosF sinF).islands.getD i default).x -
          ((g.generate sqrt2 twoPi cosF sinF).islands.getD j default).x) ^ 2 +
        (((g.generate sqrt2 twoPi cosF sinF).islands.getD i default).z -
          ((g.generate sqrt2 twoPi cosF sinF).islands.getD j default).z) ^ 2 :=
  placeIslands_spacing sqrt2 twoPi cosF sinF g.config
    (g.noise.reseed g.config.seed) h2 hws hmm hs1 hs2 hs3

/-- Witness for C2: the default configuration (8 islands) with concrete
stand-ins for the irrational library values. -/
theorem min_island_spacing_witness :
    2 ≤ DEFAULT_CONFIG.islandCount ∧ 0 < DEFAULT_CONFIG.worldSize ∧
    0 < DEFAULT_CONFIG.minIslandSize + DEFAULT_CONFIG.maxIslandSize ∧
    (0:ℚ) < 3/2 ∧ (3/2:ℚ) ≤ 2 ∧ (2:ℚ) ≤ 3/2 * (3/2) ∧
    ∀ i j,
      i < ((WorldGenerator.make DEFAULT_CONFIG).generate (3/2) 6
        (fun _ => 1) (fun _ => 0)).islands.length →
      j < ((WorldGenerator.make DEFAULT_CONFIG).generate (3/2) 6
        (fun _ => 1) (fun _ => 0)).islands.length → i ≠ j →
      ((DEFAULT_CONFIG.minIslandSize + DEFAULT_CONFIG.maxIslandSize) / 2
          * 2.5) ^ 2 ≤
        ((((WorldGenerator.make DEFAULT_CONFIG).generate (3/2) 6
            (fun _ => 1) (fun _ => 0)).islands.getD i default).x -
          (((WorldGenerator.make DEFAULT_CONFIG).generate (3/2) 6
            (fun _ => 1) (fun _ => 0)).islands.getD j default).x) ^ 2 +
        ((((WorldGenerator.make DEFAULT_CONFIG).generate (3/2) 6
            (fun _ => 1) (fun _ => 0)).islands.getD i default).z -
          (((WorldGenerator.make DEFAULT_CONFIG).generate (3/2) 6
            (fun _ => 1) (fun _ => 0)).islands.getD j default).z) ^ 2 :=
  ⟨by norm_num [DEFAULT_CONFIG], by norm_num [DEFAULT_CONFIG],
    by norm_num [DEFAULT_CONFIG], by norm_num, by norm_num, by norm_num,
    min_island_spacing (3/2) 6 (fun _ => 1) (fun _ => 0)
      (WorldGenerator.make DEFAULT_CONFIG)
      (by norm_num [WorldGenerator.make, DEFAULT_CONFIG])
      (by norm_num [WorldGenerator.make, DEFAULT_CONFIG])
      (by norm_num [WorldGenerator.make, DEFAULT_CONFIG]) (by norm_num)
      (by norm_num) (by norm_num)⟩

/-! ## Closed concrete-evaluation theorems

The theorems from here on are proved by kernel evaluation of the embedding at
concrete inputs; the Batteries rational operations are restored to their
default reducibility for that purpose. -/

attribute [local semireducible] Rat.inv Rat.mul Rat.add Rat.sub Rat.ofScientific

set_option maxRecDepth 100000 in
/-- Counterexample to C5 as stated: `reseed(NaN)` does *not* canonicalize to
the fixed default seed 12345 — the stored seed becomes NaN, and the resulting
noise stream differs from the default-seed stream (their first draws differ):
the `|| 12345` fallback exists only in the constructor. -/
theorem seed_fallback_counterexample :
    ((SeededNoise.make (.numIn (.num 5))).reseed (.numIn .nan)).seedVal ≠
      NumVal.num 12345 ∧
    ((SeededNoise.make (.numIn (.num 5))).reseed (.numIn .nan)).random.1 ≠
      (SeededNoise.make (.numIn (.num 12345))).random.1 := by
  constructor
  · decide
  · decide


/-- Counterexample to C6 as stated: with `minIslandSize = 70 >
maxIslandSize = 25` (and `islandCount = 1`), no radius can lie in the empty
interval `[70, 25]`, so the claim's radius condition fails for every seed —
the generated radius lies strictly between the two sizes instead. -/
theorem single_island_counterexample :
    ¬ ∃ isl : Island,
      (placeIslands (3/2) 6 (fun _ => 1) (fun _ => 0)
        { DEFAULT_CONFIG with
            islandCount := 1, minIslandSize := 70, maxIslandSize := 25 }
        (SeededNoise.make (SeedInput.numIn (NumVal.num 12345)))).1 = [isl] ∧
      isl.x = 0 ∧ isl.z = 0 ∧ isl.ty = .rocky ∧ isl.heightMultiplier = 1.5 ∧
      isl.edgeFalloff = 1 ∧
      (70 : ℚ) ≤ isl.radius ∧ isl.radius ≤ 25 := by
  rintro ⟨isl, -, -, -, -, -, -, hlo, hhi⟩
  linarith

set_option maxRecDepth 100000 in
/-- Counterexample to C8 as stated: in a generated world whose config sets
`waterHeight = 50` (one island, seed 3), the spawn height is
`max(h+5, 10) < waterHeight + 10`, so "at least 10 units above sea level"
fails; the absolute floor in the code is `Math.max(·, 10)`, not
`waterHeight + 10`. -/
theorem spawn_position_counterexample :
    (((WorldGenerator.make { DEFAULT_CONFIG with
          islandCount := 1, waterHeight := 50,
          seed := .numIn (.num 3) }).generate (3/2) 6 (fun _ => 1)
        (fun _ => 0)).islands).length = 1 ∧
    ((WorldGenerator.make { DEFAULT_CONFIG with
          islandCount := 1, waterHeight := 50,
          seed := .numIn (.num 3) }).generate (3/2) 6 (fun _ => 1)
        (fun _ => 0)).getSpawnPosition.y <
      ({ DEFAULT_CONFIG with
          islandCount := 1, waterHeight := 50,
          seed := .numIn (.num 3) } : WorldConfig).waterHeight + 10 := by
  constructor
  · decide
  · decide

set_option maxRecDepth 200000 in
set_option maxHeartbeats 4000000 in
/-- Counterexample to C3 as stated: in the generated world with the default
config, `islandCount = 1` and seed 14, the two sample points
`(x₁, 0)` and `(x₁ + 0.01, 0)` with `x₁ = 417030632829/17179869184`
(exactly `0.45 ·` the generated island radius, i.e. normalized island
distance exactly `0.25`) are 0.01 world-units apart yet their heights differ
by more than `1/2` world-unit (≈ 0.746): the beach micro-detail band
(`0.25 < t < 0.7`) switches an additive `noise2D · 0.8` term on
discontinuously at `t = 0.25`, so the height field does have an artificial
discontinuity inside the island-to-ocean transition. -/
theorem continuity_counterexample :
    (((417030632829 : ℚ) / 17179869184 + 1 / 100) -
        (417030632829 : ℚ) / 17179869184) ^ 2 + ((0 : ℚ) - 0) ^ 2 =
      (1 / 100) ^ 2 ∧
    1 / 2 <
      |((WorldGenerator.make { DEFAULT_CONFIG with
            islandCount := 1, seed := .numIn (.num 14) }).generate (3/2) 6
          (fun _ => 1) (fun _ => 0)).getHeightAt
          ((417030632829 : ℚ) / 17179869184) 0 -
        ((WorldGenerator.make { DEFAULT_CONFIG with
            islandCount := 1, seed := .numIn (.num 14) }).generate (3/2) 6
          (fun _ => 1) (fun _ => 0)).getHeightAt
          ((417030632829 : ℚ) / 17179869184 + 1 / 100) 0| := by
  constructor
  · norm_num
  · decide

/-- C3 amended: the 3-band elevation-factor curve itself is blended without
jumps — the interior and beach formulas agree (value 1) at the `t = 0.4`
breakpoint, the beach formula `1 - ((t-0.4)/0.3)^0.7 · 0.85` meets the
underwater value `0.15` at `t = 0.7`, and the underwater slope reaches 0 at
the slope edge `t = 1` — but the height field as a whole is not: the beach
micro-detail band and the seabed-variation cutoff switch on/off
discontinuously (see the counterexample). -/
theorem elevation_bands_continuous :
    elevationFactor 0.4 = 1 ∧
    (1 - pow07 ((0.7 - 0.4) / 0.3) * 0.85 : ℚ) = elevationFactor 0.7 ∧
    elevationFactor 0.7 = 0.15 ∧
    elevationFactor 1 = 0 := by
  refine ⟨?_, ?_, ?_, ?_⟩ <;> decide
